import Mathlib

/-!
Shallow embedding of the politeiawww inventory cache
(src/politeiawww/inventory.go) and proofs about it.

Go maps are modelled as association lists in which every mutation touches
only the first binding of a key; all operations of the source keep keys
unique, so first-binding semantics coincides with Go map semantics.
Errors are modelled as a returned `Option String` alongside the resulting
state, because the Go code mutates the receiver in place and an error
return does not roll those mutations back.
-/

namespace Politeia

/-- Go map read `v, ok := m[k]`: the binding of the first matching key. -/
def lookupKey {κ α : Type} [DecidableEq κ] : List (κ × α) → κ → Option α
  | [], _ => none
  | (k, v) :: rest, t => if k = t then some v else lookupKey rest t

/-- Go map write `m[k] = v`: replace the first binding of the key, or append
a fresh binding when the key is absent. -/
def insertReplace {κ α : Type} [DecidableEq κ] : List (κ × α) → κ → α → List (κ × α)
  | [], t, c => [(t, c)]
  | (k, v) :: rest, t, c => if k = t then (t, c) :: rest else (k, v) :: insertReplace rest t c

/-- In-place update of the value stored at a key (`m[k].field = x` through a
pointer in Go); a missing key leaves the map unchanged.  Every call site in
the source guarantees the key is present. -/
def updateEntry {κ α : Type} [DecidableEq κ] : List (κ × α) → κ → (α → α) → List (κ × α)
  | [], _, _ => []
  | (k, v) :: rest, t, f => if k = t then (k, f v) :: rest else (k, v) :: updateEntry rest t f

/-- Go `m[k]++` on a `map[string]int`: a missing key reads as zero. -/
def bumpCount (l : List (String × Int)) (k : String) : List (String × Int) :=
  insertReplace l k (((lookupKey l k).getD 0) + 1)

/-! ### Data model

The record-store api types (`pd.Record` and friends) and the www api types
live outside the embedded source tree; only the fields the inventory code
reads are modelled, with Go zero values as structure defaults. -/

namespace pd

/-- Censorship record of a politeiad record; only the token is read here. -/
structure CensorshipRecord where
  Token : String := ""
deriving DecidableEq

/-- Record-store status codes (`pd.RecordStatusT`), numeric as in Go. -/
def RecordStatusInvalid : Nat := 0
def RecordStatusNotFound : Nat := 1
def RecordStatusNotReviewed : Nat := 2
def RecordStatusCensored : Nat := 3
def RecordStatusPublic : Nat := 4
def RecordStatusUnreviewedChanges : Nat := 5
def RecordStatusArchived : Nat := 6

end pd

namespace www

/-- www proposal status codes (`www.PropStatusT`), numeric as in Go. -/
def PropStatusInvalid : Nat := 0
def PropStatusNotFound : Nat := 1
def PropStatusNotReviewed : Nat := 2
def PropStatusCensored : Nat := 3
def PropStatusPublic : Nat := 4
def PropStatusUnreviewedChanges : Nat := 5
def PropStatusAbandoned : Nat := 6

/-- A proposal comment; the up and down totals are derived data written by
the tally, as the spec describes the comment shape. -/
structure Comment where
  Token : String := ""
  CommentID : String := ""
  PublicKey : String := ""
  CommentText : String := ""
  Timestamp : Int := 0
  UpVotes : Nat := 0
  DownVotes : Nat := 0
deriving DecidableEq

/-- A raw like/dislike event for a comment.  Modelled from the spec:
(token, comment id, voting user public key, action in plus-minus one,
timestamp). -/
structure LikeComment where
  Token : String := ""
  CommentID : String := ""
  PublicKey : String := ""
  Action : Int := 0
  Timestamp : Int := 0
deriving DecidableEq

/-- Vote authorization metadata, one decoded value. -/
structure AuthorizeVoteReply where
  Action : String := ""
  Receipt : String := ""
deriving DecidableEq

/-- Vote bits and options, one decoded value. -/
structure StartVote where
  PublicKey : String := ""
  Vote : String := ""
deriving DecidableEq

/-- Voting metadata, one decoded value. -/
structure StartVoteReply where
  StartBlockHeight : String := ""
  EndHeight : String := ""
deriving DecidableEq

end www

/-- Proposal-level metadata decoded from the general metadata stream;
the author public key is the field the counters consume. -/
structure BackendProposalMetadata where
  Version : Nat := 0
  Timestamp : Int := 0
  Name : String := ""
  PublicKey : String := ""
  Signature : String := ""
deriving DecidableEq

/-- One state-change record from the changes metadata stream. -/
structure MDStreamChanges where
  Version : Nat := 0
  AdminPubKey : String := ""
  NewStatus : Nat := 0
  Timestamp : Int := 0
deriving DecidableEq

/-- A decoded value carried by a metadata stream payload.  A stream payload
is modelled as the sequence of decode outcomes of the JSON decoder:
`some v` is a well-formed value, `none` a malformed one, and the end of the
list is the io.EOF of the decoder. -/
inductive MDValue : Type
  | propMD (md : BackendProposalMetadata)
  | change (md : MDStreamChanges)
  | voteAuth (avr : www.AuthorizeVoteReply)
  | voteBits (sv : www.StartVote)
  | voteSnapshot (svr : www.StartVoteReply)
deriving DecidableEq

namespace pd

/-- One metadata stream attached to a record: a numeric stream id and a
payload, the latter modelled as its sequence of decode outcomes. -/
structure MetadataStream where
  ID : Nat := 0
  Payload : List (Option MDValue) := []
deriving DecidableEq

/-- The fields of `pd.Record` the inventory code reads. -/
structure Record where
  Status : Nat := 0
  Timestamp : Int := 0
  CensorshipRecord : CensorshipRecord := {}
  Metadata : List MetadataStream := []
deriving DecidableEq

end pd

/-- Metadata stream ids.  `mdStreamGeneral`/`mdStreamChanges` are
politeiawww constants and the other three decredplugin constants, all
defined outside the embedded source tree; only their distinctness matters. -/
def mdStreamGeneral : Nat := 0
def mdStreamChanges : Nat := 2
def MDStreamAuthorizeVote : Nat := 13
def MDStreamVoteBits : Nat := 14
def MDStreamVoteSnapshot : Nat := 15

/-- One cache entry per token (`inventoryRecord`). -/
structure inventoryRecord where
  record : pd.Record := {}
  proposalMD : BackendProposalMetadata := {}
  comments : List (String × www.Comment) := []
  commentsLikes : List (String × List www.LikeComment) := []
  changes : List MDStreamChanges := []
  voteAuthorization : www.AuthorizeVoteReply := {}
  votebits : www.StartVote := {}
  voting : www.StartVoteReply := {}
deriving DecidableEq

/-- The fields of the politeiawww backend the inventory code touches: the
keyed store, the six global status counters, the public-key-to-user-id
directory and the per-user proposal counts. -/
structure backend where
  inventory : List (String × inventoryRecord) := []
  numOfInvalid : Int := 0
  numOfCensored : Int := 0
  numOfUnvetted : Int := 0
  numOfUnvettedChanges : Int := 0
  numOfPublic : Int := 0
  numOfAbandoned : Int := 0
  userPubkeys : List (String × String) := []
  numOfPropsByUserID : List (String × Int) := []
deriving DecidableEq

/-- Modelled from the spec: `convertPropStatusFromPD` (politeiawww
convert.go, outside the embedded source tree) totally maps a record-store
status to a www proposal status; anything unrecognized maps to invalid. -/
def convertPropStatusFromPD (s : Nat) : Nat :=
  if s = pd.RecordStatusNotFound then www.PropStatusNotFound
  else if s = pd.RecordStatusNotReviewed then www.PropStatusNotReviewed
  else if s = pd.RecordStatusCensored then www.PropStatusCensored
  else if s = pd.RecordStatusPublic then www.PropStatusPublic
  else if s = pd.RecordStatusUnreviewedChanges then www.PropStatusUnreviewedChanges
  else if s = pd.RecordStatusArchived then www.PropStatusAbandoned
  else www.PropStatusInvalid

/-- The `executeUpdate` closure of `_updateInventoryCountOfPropStatus`:
adds `v` to the one counter selected by the www status, the default case
falling into the invalid bucket. -/
def executeUpdate (b : backend) (v : Int) (status : Nat) : backend :=
  if status = www.PropStatusUnreviewedChanges then
    { b with numOfUnvettedChanges := b.numOfUnvettedChanges + v }
  else if status = www.PropStatusNotReviewed then
    { b with numOfUnvetted := b.numOfUnvetted + v }
  else if status = www.PropStatusCensored then
    { b with numOfCensored := b.numOfCensored + v }
  else if status = www.PropStatusPublic then
    { b with numOfPublic := b.numOfPublic + v }
  else if status = www.PropStatusAbandoned then
    { b with numOfAbandoned := b.numOfAbandoned + v }
  else
    { b with numOfInvalid := b.numOfInvalid + v }

/-- `_updateInventoryCountOfPropStatus`: decrease the bucket of the old
status when one is supplied, then increase the bucket of the new status. -/
def _updateInventoryCountOfPropStatus (b : backend) (status : Nat)
    (oldStatus : Option Nat) : backend :=
  let b1 :=
    match oldStatus with
    | some os => executeUpdate b (-1) (convertPropStatusFromPD os)
    | none => b
  executeUpdate b1 1 (convertPropStatusFromPD status)

/-! ### Metadata loaders -/

/-- Shorthand for the in-place mutation of one inventory entry. -/
def updateEntryB (b : backend) (t : String) (f : inventoryRecord → inventoryRecord) : backend :=
  { b with inventory := updateEntry b.inventory t f }

/-- `loadPropMD`: decode one value; io.EOF on an empty payload is success
with nothing stored, a decode failure is returned as an error. -/
def loadPropMD (b : backend) (token : String) (payload : List (Option MDValue)) :
    backend × Option String :=
  match payload with
  | [] => (b, none)
  | none :: _ => (b, some "loadPropMD: decode error")
  | some (MDValue.propMD md) :: _ =>
      (updateEntryB b token (fun ir => { ir with proposalMD := md }), none)
  | some _ :: _ => (b, some "loadPropMD: decode error")

/-- `loadChanges`: decode values until io.EOF, appending each to the changes
sequence as it is decoded; a decode failure aborts the loop, keeping the
values appended before it. -/
def loadChanges (b : backend) (token : String) (payload : List (Option MDValue)) :
    backend × Option String :=
  match payload with
  | [] => (b, none)
  | none :: _ => (b, some "loadChanges: decode error")
  | some (MDValue.change md) :: rest =>
      loadChanges
        (updateEntryB b token (fun ir => { ir with changes := ir.changes ++ [md] }))
        token rest
  | some _ :: _ => (b, some "loadChanges: decode error")

/-- `loadVoteAuthorization`: decode one value and store it wholesale. -/
def loadVoteAuthorization (b : backend) (token : String)
    (payload : List (Option MDValue)) : backend × Option String :=
  match payload with
  | [] => (b, none)
  | none :: _ => (b, some "loadVoteAuthorization: decode error")
  | some (MDValue.voteAuth avr) :: _ =>
      (updateEntryB b token (fun ir => { ir with voteAuthorization := avr }), none)
  | some _ :: _ => (b, some "loadVoteAuthorization: decode error")

/-- `loadVoteBits`: decode one value and store it wholesale. -/
def loadVoteBits (b : backend) (token : String) (payload : List (Option MDValue)) :
    backend × Option String :=
  match payload with
  | [] => (b, none)
  | none :: _ => (b, some "loadVoteBits: decode error")
  | some (MDValue.voteBits sv) :: _ =>
      (updateEntryB b token (fun ir => { ir with votebits := sv }), none)
  | some _ :: _ => (b, some "loadVoteBits: decode error")

/-- `loadVoting`: decode one value and store it wholesale. -/
def loadVoting (b : backend) (token : String) (payload : List (Option MDValue)) :
    backend × Option String :=
  match payload with
  | [] => (b, none)
  | none :: _ => (b, some "loadVoting: decode error")
  | some (MDValue.voteSnapshot svr) :: _ =>
      (updateEntryB b token (fun ir => { ir with voting := svr }), none)
  | some _ :: _ => (b, some "loadVoting: decode error")

/-- The dispatch body of `loadRecordMetadata` for a single stream: route by
stream id; a loader error is logged and dropped, an unrecognized id is
logged and skipped. -/
def loadStream (b : backend) (t : String) (m : pd.MetadataStream) : backend :=
  if m.ID = mdStreamGeneral then (loadPropMD b t m.Payload).1
  else if m.ID = mdStreamChanges then (loadChanges b t m.Payload).1
  else if m.ID = MDStreamAuthorizeVote then (loadVoteAuthorization b t m.Payload).1
  else if m.ID = MDStreamVoteBits then (loadVoteBits b t m.Payload).1
  else if m.ID = MDStreamVoteSnapshot then (loadVoting b t m.Payload).1
  else b

/-- `loadRecordMetadata`: process every metadata stream of the record in
order; no stream outcome stops the iteration. -/
def loadRecordMetadata (b : backend) (v : pd.Record) : backend :=
  v.Metadata.foldl (fun b m => loadStream b v.CensorshipRecord.Token m) b

/-! ### Insert and update -/

/-- The fresh cache entry `_newInventoryRecord` stores: the record and an
empty comments map, every other field at its zero value. -/
def freshEntry (record : pd.Record) : inventoryRecord :=
  { record := record, comments := [] }

/-- `_updateCountOfUserProposals`: look the entry up, resolve the author
public key to a user id, and bump that user count; a failed lookup is an
error with no mutation. -/
def _updateCountOfUserProposals (b : backend) (token : String) : backend × Option String :=
  match lookupKey b.inventory token with
  | none => (b, some ("inventory record not found: " ++ token))
  | some ir =>
      match lookupKey b.userPubkeys ir.proposalMD.PublicKey with
      | none => (b, some "User not found ")
      | some uid => ({ b with numOfPropsByUserID := bumpCount b.numOfPropsByUserID uid }, none)

/-- The state reached by `_newInventoryRecord` on a fresh token just before
the user-count step: entry stored, metadata loaded, status bucket bumped. -/
def postInsertState (b : backend) (record : pd.Record) : backend :=
  _updateInventoryCountOfPropStatus
    (loadRecordMetadata
      { b with inventory :=
          (record.CensorshipRecord.Token, freshEntry record) :: b.inventory }
      record)
    record.Status none

/-- `_newInventoryRecord`: reject a duplicate token, otherwise store a fresh
entry, load its metadata, bump the status bucket and then the user count;
an error from the user-count step is returned with the mutations kept, as
in the Go code. -/
def _newInventoryRecord (b : backend) (record : pd.Record) : backend × Option String :=
  let t := record.CensorshipRecord.Token
  match lookupKey b.inventory t with
  | some _ => (b, some ("newInventoryRecord: duplicate token: " ++ t))
  | none =>
      match _updateCountOfUserProposals (postInsertState b record) t with
      | (b4, some err) =>
          (b4, some ("_newInventoryRecord: _updateCountOfUserProposals " ++ err))
      | (b4, none) => (b4, none)

/-- `newInventoryRecord`: the guarded wrapper; the guard acquisition is a
no-op in this sequential model. -/
def newInventoryRecord (b : backend) (record : pd.Record) : backend × Option String :=
  _newInventoryRecord b record

/-- `_updateInventoryRecord`: reject an unseen token, otherwise move the
status counters from the old to the new status, replace the record snapshot
and reload the metadata, all in one guarded step. -/
def _updateInventoryRecord (b : backend) (record : pd.Record) : backend × Option String :=
  let t := record.CensorshipRecord.Token
  match lookupKey b.inventory t with
  | none => (b, some ("inventory record not found: " ++ t))
  | some ir =>
      let b1 := _updateInventoryCountOfPropStatus b record.Status (some ir.record.Status)
      let b2 := updateEntryB b1 t (fun irr => { irr with record := record })
      (loadRecordMetadata b2 record, none)

/-- `updateInventoryRecord`: the guarded wrapper. -/
def updateInventoryRecord (b : backend) (record : pd.Record) : backend × Option String :=
  _updateInventoryRecord b record

/-! ### Buckets, counter views and operation sequences -/

/-- The six status buckets of the global counters. -/
inductive Bucket : Type
  | invalid | censored | unvetted | unvettedChanges | public | abandoned
deriving DecidableEq

/-- The bucket selected by `executeUpdate` for a www status. -/
def bucketOf (status : Nat) : Bucket :=
  if status = www.PropStatusUnreviewedChanges then Bucket.unvettedChanges
  else if status = www.PropStatusNotReviewed then Bucket.unvetted
  else if status = www.PropStatusCensored then Bucket.censored
  else if status = www.PropStatusPublic then Bucket.public
  else if status = www.PropStatusAbandoned then Bucket.abandoned
  else Bucket.invalid

/-- Read one status-bucket counter of the backend. -/
def counterOf (b : backend) : Bucket → Int
  | Bucket.invalid => b.numOfInvalid
  | Bucket.censored => b.numOfCensored
  | Bucket.unvetted => b.numOfUnvetted
  | Bucket.unvettedChanges => b.numOfUnvettedChanges
  | Bucket.public => b.numOfPublic
  | Bucket.abandoned => b.numOfAbandoned

/-- The sum of the six status-bucket counters. -/
def sumCounters (b : backend) : Int :=
  b.numOfInvalid + b.numOfCensored + b.numOfUnvetted +
    b.numOfUnvettedChanges + b.numOfPublic + b.numOfAbandoned

/-- One cache mutation: an insert or an update. -/
inductive CacheOp : Type
  | insert (record : pd.Record)
  | update (record : pd.Record)

/-- Apply one operation through the guarded wrappers. -/
def applyOp (b : backend) : CacheOp → backend × Option String
  | CacheOp.insert record => newInventoryRecord b record
  | CacheOp.update record => updateInventoryRecord b record

/-- Run a sequence of operations, keeping the state an operation leaves
behind whether or not it reports an error, as the Go code does. -/
def runOps (b : backend) : List CacheOp → backend
  | [] => b
  | op :: rest => runOps (applyOp b op).1 rest

/-- Whether every operation of the sequence succeeds when run in order. -/
def allOk (b : backend) : List CacheOp → Bool
  | [] => true
  | op :: rest => (applyOp b op).2.isNone && allOk (applyOp b op).1 rest

/-- A backend before the first insert: empty inventory, zero counters, an
arbitrary public-key directory. -/
def initialBackend (ups : List (String × String)) : backend :=
  { userPubkeys := ups }

/-! ### Comment tally

`_updateResultsForCommentLike` lives outside the embedded source tree.
Modelled from the spec: group the like events by (comment id, user public
key); within a group the event with the latest timestamp wins, a timestamp
tie going to the event later in ingestion order; the resultant actions of
the groups of a comment are summed into its up and down counts, which are
written over the stored comment. -/

/-- Keep the later of two like events: the incoming event wins on a
timestamp at least as large as that of the current best. -/
def pickLatest (cur : Option www.LikeComment) (e : www.LikeComment) : Option www.LikeComment :=
  match cur with
  | none => some e
  | some best => if best.Timestamp ≤ e.Timestamp then some e else some best

/-- The events of one (comment id, user public key) group, in ingestion
order. -/
def likesOfPair (events : List www.LikeComment) (cid uid : String) : List www.LikeComment :=
  events.filter (fun e => e.CommentID == cid && e.PublicKey == uid)

/-- The resultant event of a group: the latest by timestamp, ties to the
later event. -/
def resultantLike (events : List www.LikeComment) (cid uid : String) :
    Option www.LikeComment :=
  (likesOfPair events cid uid).foldl pickLatest none

/-- The resultant action of a group. -/
def resultantAction (events : List www.LikeComment) (cid uid : String) : Option Int :=
  (resultantLike events cid uid).map (fun e => e.Action)

/-- The distinct users having voted on a comment, in first-seen order. -/
def usersOf (events : List www.LikeComment) (cid : String) : List String :=
  ((events.filter (fun e => e.CommentID == cid)).map (fun e => e.PublicKey)).dedup

/-- The up and down totals of one comment: one resultant action counted per
user. -/
def commentTally (events : List www.LikeComment) (cid : String) : Nat × Nat :=
  ((usersOf events cid).countP (fun u => resultantAction events cid u == some 1),
   (usersOf events cid).countP (fun u => resultantAction events cid u == some (-1)))

/-- All like events stored for one entry, flattened in map order. -/
def allLikes (ir : inventoryRecord) : List www.LikeComment :=
  (ir.commentsLikes.map (fun p => p.2)).flatten

/-- Modelled from the spec: `_updateResultsForCommentLike` recomputes the
tally of the liked comment from the stored events and writes it over the
stored comment; a missing entry or comment is an error with no mutation. -/
def _updateResultsForCommentLike (b : backend) (l : www.LikeComment) :
    backend × Option String :=
  match lookupKey b.inventory l.Token with
  | none => (b, some ("inventory record not found: " ++ l.Token))
  | some ir =>
      match lookupKey ir.comments l.CommentID with
      | none => (b, some ("comment not found " ++ l.Token ++ ": " ++ l.CommentID))
      | some c =>
          let tally := commentTally (allLikes ir) l.CommentID
          let c2 := { c with UpVotes := tally.1, DownVotes := tally.2 }
          (updateEntryB b l.Token (fun irr =>
             { irr with comments := insertReplace irr.comments l.CommentID c2 }), none)

/-- The comment value `_updateResultsForCommentLike` writes: the stored
comment with its up and down totals replaced by the recomputed tally. -/
def writtenComment (ir : inventoryRecord) (cid : String) (c : www.Comment) : www.Comment :=
  { c with UpVotes := (commentTally (allLikes ir) cid).1,
           DownVotes := (commentTally (allLikes ir) cid).2 }

/-- An entry with one comment value stored over its comments map. -/
def writtenEntry (ir : inventoryRecord) (cid : String) (c : www.Comment) : inventoryRecord :=
  { ir with comments := insertReplace ir.comments cid c }

/-- The state write of `_updateResultsForCommentLike`: store a comment value
over the entry of a token. -/
def writeLike (b : backend) (tok cid : String) (cw : www.Comment) : backend :=
  updateEntryB b tok (fun irr => writtenEntry irr cid cw)

/-- The loop body of `_processCommentsLikesResults`: process the events in
order, stopping at the first error with the mutations so far kept. -/
def processLikesList (b : backend) : List www.LikeComment → backend × Option String
  | [] => (b, none)
  | l :: rest =>
      match _updateResultsForCommentLike b l with
      | (b2, some err) =>
          (b2, some ("processCommentsLikesResults: updateResultsForCommentLike " ++ err))
      | (b2, none) => processLikesList b2 rest

/-- `_processCommentsLikesResults`: recompute the comment tallies of one
entry from its stored like events. -/
def _processCommentsLikesResults (b : backend) (token : String) :
    backend × Option String :=
  match lookupKey b.inventory token with
  | none => (b, some ("inventory record not found: " ++ token))
  | some ir => processLikesList b (allLikes ir)

/-! ### Query engine -/

namespace www

/-- The www censorship record; only the token is read by the query code. -/
structure CensorshipRecordW where
  Token : String := ""
deriving DecidableEq

/-- The fields of a denormalized proposal view (`www.ProposalRecord`) the
query code reads. -/
structure ProposalRecord where
  State : Nat := 0
  Status : Nat := 0
  Timestamp : Int := 0
  UserId : String := ""
  PublicKey : String := ""
  CensorshipRecord : CensorshipRecordW := {}
deriving DecidableEq

end www

/-- `proposalsRequest`: the parameters of `getProposals`.  The state map is
modelled as its membership function, a key absent from the Go map reading
as `false`. -/
structure proposalsRequest where
  After : String := ""
  Before : String := ""
  UserId : String := ""
  StateMap : Nat → Bool := fun _ => false

/-- The sort comparator of `getProposals`: older timestamp first, a
timestamp tie broken by descending token. -/
def proposalLE (a b : www.ProposalRecord) : Bool :=
  if a.Timestamp = b.Timestamp then
    decide (b.CensorshipRecord.Token ≤ a.CensorshipRecord.Token)
  else decide (a.Timestamp < b.Timestamp)

/-- Insert a proposal into a sorted list, before the first item it compares
at most equal to. -/
def insertSorted (a : www.ProposalRecord) : List www.ProposalRecord → List www.ProposalRecord
  | [] => [a]
  | b :: l => if proposalLE a b then a :: b :: l else b :: insertSorted a l

/-- The `sort.Slice` call of `getProposals`, as an insertion sort.  The
comparator is a strict total order whenever tokens are distinct, so any
comparison sort, the unstable Go one included, produces this result on
every snapshot the cache yields. -/
def sortProposals (l : List www.ProposalRecord) : List www.ProposalRecord :=
  l.foldr insertSorted []

/-- The two `continue` filters of the walk: keep a proposal when the user
filter is unset or matches, and its state is mapped to true. -/
def passesFilters (pr : proposalsRequest) (p : www.ProposalRecord) : Bool :=
  (pr.UserId == "" || pr.UserId == p.UserId) && pr.StateMap p.State

/-- The reverse walk of `getProposals` over the sorted snapshot, paired
with original indices: skip filtered items, collect once the page has
started, otherwise look for the after token, or record the index of the
before token. -/
def scanFirst (pr : proposalsRequest) (pageSize : Nat) :
    List (Nat × www.ProposalRecord) → Bool → List www.ProposalRecord →
    List www.ProposalRecord × Option Nat
  | [], _, acc => (acc, none)
  | (i, proposal) :: rest, pageStarted, acc =>
      if passesFilters pr proposal then
        if pageStarted then
          let acc2 := acc ++ [proposal]
          if pageSize ≤ acc2.length then (acc2, none)
          else scanFirst pr pageSize rest pageStarted acc2
        else if pr.After ≠ "" then
          scanFirst pr pageSize rest (proposal.CensorshipRecord.Token == pr.After) acc
        else if pr.Before ≠ "" then
          if proposal.CensorshipRecord.Token = pr.Before then (acc, some i)
          else scanFirst pr pageSize rest pageStarted acc
        else scanFirst pr pageSize rest pageStarted acc
      else scanFirst pr pageSize rest pageStarted acc

/-- The forward walk of `getProposals` past the before position: skip
filtered items and prepend the rest, so the page stays newest-first. -/
def scanBefore (pr : proposalsRequest) (pageSize : Nat) :
    List www.ProposalRecord → List www.ProposalRecord → List www.ProposalRecord
  | [], acc => acc
  | proposal :: rest, acc =>
      if passesFilters pr proposal then
        let acc2 := proposal :: acc
        if pageSize ≤ acc2.length then acc2
        else scanBefore pr pageSize rest acc2
      else scanBefore pr pageSize rest acc

/-- `getProposals` over a point-in-time snapshot.  The snapshot argument
stands for the `_getAllProposals` copy taken under the read guard; the page
size stands for `www.ProposalListPageSize`, a positive constant defined
outside the embedded source tree.  The function reports no error. -/
def getProposals (pageSize : Nat) (pr : proposalsRequest)
    (allProposals : List www.ProposalRecord) : List www.ProposalRecord :=
  match (scanFirst pr pageSize (sortProposals allProposals).enum.reverse
      (pr.After == "" && pr.Before == "") []).2 with
  | some beforeIdx =>
      scanBefore pr pageSize ((sortProposals allProposals).drop (beforeIdx + 1))
        (scanFirst pr pageSize (sortProposals allProposals).enum.reverse
          (pr.After == "" && pr.Before == "") []).1
  | none =>
      (scanFirst pr pageSize (sortProposals allProposals).enum.reverse
        (pr.After == "" && pr.Before == "") []).1

/-! ### Reference semantics of the entry copy

`_getInventoryRecord` returns `*r`, a Go struct copy.  A Go map value is a
reference, so the copy shares the comments map with the stored entry.  This
small model makes that explicit: the comments map of an entry is a
reference into a heap of maps, and the struct copy copies the reference. -/

namespace RefModel

/-- A cache entry as Go lays it out: value fields plus a map reference. -/
structure inventoryRecordG where
  record : pd.Record := {}
  commentsRef : Nat := 0
deriving DecidableEq

/-- The cache together with the heap cells of the comments maps. -/
structure CacheState where
  commentHeap : List (Nat × List (String × www.Comment)) := []
  inventory : List (String × inventoryRecordG) := []
deriving DecidableEq

/-- `_getInventoryRecord`: the struct copy `*r`, copying the map reference
along with the value fields. -/
def _getInventoryRecord (s : CacheState) (token : String) : Option inventoryRecordG :=
  lookupKey s.inventory token

/-- Read the comments map a reference points to. -/
def derefComments (s : CacheState) (ref : Nat) : List (String × www.Comment) :=
  (lookupKey s.commentHeap ref).getD []

/-- A caller mutation `copy.comments[cid] = c` performed on the returned
copy: a map write through the copied reference updates the shared heap
cell. -/
def setCommentThroughCopy (s : CacheState) (copy : inventoryRecordG)
    (cid : String) (c : www.Comment) : CacheState :=
  { s with commentHeap :=
      updateEntry s.commentHeap copy.commentsRef (fun m => insertReplace m cid c) }

/-- The comments map of the entry stored in the cache, as the cache
observes it. -/
def cacheComments (s : CacheState) (token : String) :
    Option (List (String × www.Comment)) :=
  (lookupKey s.inventory token).map (fun e => derefComments s e.commentsRef)

end RefModel

/-! ### Concrete example data used to exercise the theorems -/

/-- The entry value the cache stores for t1 in the reference model: its
comments map lives in heap cell 0. -/
def eRef : RefModel.inventoryRecordG := { commentsRef := 0 }

/-- A reference-model cache holding t1 with an empty comments map in heap
cell 0. -/
def sRef : RefModel.CacheState :=
  { commentHeap := [(0, [])], inventory := [("t1", eRef)] }

/-- A directory mapping the zero-value public key to a user id. -/
def upsEx : List (String × String) := [("", "user1")]

/-- An unreviewed record with token t1 and no metadata streams. -/
def recEx1 : pd.Record :=
  { Status := pd.RecordStatusNotReviewed, Timestamp := 1,
    CensorshipRecord := { Token := "t1" }, Metadata := [] }

/-- The same record moved to public status. -/
def recEx1Pub : pd.Record := { recEx1 with Status := pd.RecordStatusPublic }

/-- Insert t1, then update it to public. -/
def opsEx : List CacheOp := [CacheOp.insert recEx1, CacheOp.update recEx1Pub]

/-- The entry the insert of t1 stores. -/
def irEx1 : inventoryRecord := freshEntry recEx1

/-- A backend already holding t1. -/
def bEx1 : backend :=
  { inventory := [("t1", irEx1)], numOfUnvetted := 1, userPubkeys := upsEx }

/-- The like events of the tally example: u1 votes up at t=1, u1 votes down
at t=2, u2 votes up at t=3, all on comment c1. -/
def likeEx1 : www.LikeComment :=
  { Token := "t1", CommentID := "c1", PublicKey := "u1", Action := 1, Timestamp := 1 }

def likeEx2 : www.LikeComment :=
  { Token := "t1", CommentID := "c1", PublicKey := "u1", Action := -1, Timestamp := 2 }

def likeEx3 : www.LikeComment :=
  { Token := "t1", CommentID := "c1", PublicKey := "u2", Action := 1, Timestamp := 3 }

/-- Two like events of the same user on the same comment sharing one
timestamp: an up vote and a down vote, both at t=1. -/
def likeTieA : www.LikeComment :=
  { Token := "t1", CommentID := "c1", PublicKey := "u1", Action := 1, Timestamp := 1 }

def likeTieB : www.LikeComment :=
  { Token := "t1", CommentID := "c1", PublicKey := "u1", Action := -1, Timestamp := 1 }

/-- A stored comment c1 on t1 with stale (zero) vote totals. -/
def cEx1 : www.Comment :=
  { Token := "t1", CommentID := "c1", PublicKey := "u1", Timestamp := 1 }

/-- An entry for t1 holding comment c1 and the three example like events. -/
def irEx2 : inventoryRecord :=
  { record := recEx1, comments := [("c1", cEx1)],
    commentsLikes := [("c1", [likeEx1, likeEx2, likeEx3])] }

/-- A backend holding the t1 entry with comments and like events. -/
def bEx2 : backend := { inventory := [("t1", irEx2)] }

/-- A proposal view with the given token and timestamp, owned by user u in
state 1. -/
def mkProp (tok : String) (ts : Int) : www.ProposalRecord :=
  { State := 1, Timestamp := ts, UserId := "u", CensorshipRecord := { Token := tok } }

def pA : www.ProposalRecord := mkProp "A" 1
def pB : www.ProposalRecord := mkProp "B" 2
def pC : www.ProposalRecord := mkProp "C" 3
def pD : www.ProposalRecord := mkProp "D" 4
def pE : www.ProposalRecord := mkProp "E" 5

/-- The five-proposal snapshot of the pagination example. -/
def snapEx : List www.ProposalRecord := [pA, pB, pC, pD, pE]

/-- A state filter accepting exactly state 1. -/
def stateMapAll : Nat → Bool := fun s => s == 1

def reqAfterC : proposalsRequest := { After := "C", StateMap := stateMapAll }
def reqBeforeC : proposalsRequest := { Before := "C", StateMap := stateMapAll }
def reqAfterZ : proposalsRequest := { After := "Z", StateMap := stateMapAll }

/-- Two proposals owned by different users. -/
def pX : www.ProposalRecord :=
  { State := 1, Timestamp := 1, UserId := "u1", CensorshipRecord := { Token := "a" } }

def pY : www.ProposalRecord :=
  { State := 1, Timestamp := 2, UserId := "u2", CensorshipRecord := { Token := "b" } }

/-- A request anchored after the token of pY while filtering to the user of
pX, so the anchor entry itself fails the user filter. -/
def reqC5 : proposalsRequest := { After := "b", UserId := "u1", StateMap := stateMapAll }

/-! ## Lemmas: association lists -/

theorem lookupKey_updateEntry {κ α : Type} [DecidableEq κ]
    (l : List (κ × α)) (t s : κ) (f : α → α) :
    lookupKey (updateEntry l t f) s =
      if s = t then (lookupKey l t).map f else lookupKey l s := by
  induction l with
  | nil => simp [updateEntry, lookupKey]
  | cons hd tl ih =>
      obtain ⟨k, v⟩ := hd
      by_cases hkt : k = t
      · subst hkt
        by_cases hks : k = s
        · subst hks
          simp [updateEntry, lookupKey]
        · have hsk : ¬s = k := fun h => hks h.symm
          simp [updateEntry, lookupKey, hks, hsk]
      · by_cases hks : k = s
        · subst hks
          have hst : ¬k = t := hkt
          simp [updateEntry, lookupKey, hst]
        · simp [updateEntry, lookupKey, hkt, hks, ih]

theorem length_updateEntry {κ α : Type} [DecidableEq κ]
    (l : List (κ × α)) (t : κ) (f : α → α) :
    (updateEntry l t f).length = l.length := by
  induction l with
  | nil => rfl
  | cons hd tl ih =>
      obtain ⟨k, v⟩ := hd
      by_cases hkt : k = t <;> simp [updateEntry, hkt, ih]

theorem lookupKey_insertReplace {κ α : Type} [DecidableEq κ]
    (l : List (κ × α)) (t s : κ) (c : α) :
    lookupKey (insertReplace l t c) s =
      if s = t then some c else lookupKey l s := by
  induction l with
  | nil =>
      by_cases hst : s = t
      · subst hst
        simp [insertReplace, lookupKey]
      · have hts : ¬t = s := fun h => hst h.symm
        simp [insertReplace, lookupKey, hst, hts]
  | cons hd tl ih =>
      obtain ⟨k, v⟩ := hd
      by_cases hkt : k = t
      · subst hkt
        by_cases hks : k = s
        · subst hks
          simp [insertReplace, lookupKey]
        · have hsk : ¬s = k := fun h => hks h.symm
          simp [insertReplace, lookupKey, hks, hsk]
      · by_cases hks : k = s
        · subst hks
          have hst : ¬k = t := hkt
          simp [insertReplace, lookupKey, hkt, hst]
        · simp [insertReplace, lookupKey, hkt, hks, ih]

theorem insertReplace_self {κ α : Type} [DecidableEq κ]
    (l : List (κ × α)) (t : κ) (c : α) (h : lookupKey l t = some c) :
    insertReplace l t c = l := by
  induction l with
  | nil => simp [lookupKey] at h
  | cons hd tl ih =>
      obtain ⟨k, v⟩ := hd
      by_cases hkt : k = t
      · subst hkt
        have h2 : v = c := by simpa [lookupKey] using h
        subst h2
        simp [insertReplace]
      · simp only [lookupKey, if_neg hkt] at h
        simp [insertReplace, hkt, ih h]

theorem updateEntry_fix {κ α : Type} [DecidableEq κ]
    (l : List (κ × α)) (t : κ) (f : α → α) (v : α)
    (h : lookupKey l t = some v) (hf : f v = v) :
    updateEntry l t f = l := by
  induction l with
  | nil => simp [lookupKey] at h
  | cons hd tl ih =>
      obtain ⟨k, w⟩ := hd
      by_cases hkt : k = t
      · subst hkt
        have h2 : w = v := by simpa [lookupKey] using h
        subst h2
        simp [updateEntry, hf]
      · simp only [lookupKey, if_neg hkt] at h
        simp [updateEntry, hkt, ih h]

/-! ## Lemmas: the loaders only touch the inventory, and only entry fields
other than the stored record -/

theorem backend_frame_trans {b b1 b2 : backend}
    (h1 : b1 = { b with inventory := b1.inventory })
    (h2 : b2 = { b1 with inventory := b2.inventory }) :
    b2 = { b with inventory := b2.inventory } := by
  calc b2 = { b1 with inventory := b2.inventory } := h2
    _ = { { b with inventory := b1.inventory } with inventory := b2.inventory } :=
        congrArg (fun x => { x with inventory := b2.inventory }) h1
    _ = { b with inventory := b2.inventory } := rfl

theorem loadChanges_frame (token : String) (payload : List (Option MDValue)) :
    ∀ b : backend, (loadChanges b token payload).1 =
      { b with inventory := (loadChanges b token payload).1.inventory } := by
  induction payload with
  | nil => intro b; rfl
  | cons hd tl ih =>
      intro b
      match hd with
      | none => rfl
      | some (MDValue.propMD md) => rfl
      | some (MDValue.voteAuth avr) => rfl
      | some (MDValue.voteBits sv) => rfl
      | some (MDValue.voteSnapshot svr) => rfl
      | some (MDValue.change md) =>
          exact backend_frame_trans rfl (ih (updateEntryB b token _))

theorem loadStream_frame (b : backend) (t : String) (m : pd.MetadataStream) :
    loadStream b t m = { b with inventory := (loadStream b t m).inventory } := by
  unfold loadStream
  split_ifs with h1 h2 h3 h4 h5
  · match hp : m.Payload with
    | [] => rfl
    | none :: _ => rfl
    | some (MDValue.propMD md) :: _ => rfl
    | some (MDValue.change md) :: _ => rfl
    | some (MDValue.voteAuth avr) :: _ => rfl
    | some (MDValue.voteBits sv) :: _ => rfl
    | some (MDValue.voteSnapshot svr) :: _ => rfl
  · exact loadChanges_frame t m.Payload b
  · match hp : m.Payload with
    | [] => rfl
    | none :: _ => rfl
    | some (MDValue.propMD md) :: _ => rfl
    | some (MDValue.change md) :: _ => rfl
    | some (MDValue.voteAuth avr) :: _ => rfl
    | some (MDValue.voteBits sv) :: _ => rfl
    | some (MDValue.voteSnapshot svr) :: _ => rfl
  · match hp : m.Payload with
    | [] => rfl
    | none :: _ => rfl
    | some (MDValue.propMD md) :: _ => rfl
    | some (MDValue.change md) :: _ => rfl
    | some (MDValue.voteAuth avr) :: _ => rfl
    | some (MDValue.voteBits sv) :: _ => rfl
    | some (MDValue.voteSnapshot svr) :: _ => rfl
  · match hp : m.Payload with
    | [] => rfl
    | none :: _ => rfl
    | some (MDValue.propMD md) :: _ => rfl
    | some (MDValue.change md) :: _ => rfl
    | some (MDValue.voteAuth avr) :: _ => rfl
    | some (MDValue.voteBits sv) :: _ => rfl
    | some (MDValue.voteSnapshot svr) :: _ => rfl
  · rfl

theorem loadRecordMetadata_frame (b : backend) (v : pd.Record) :
    loadRecordMetadata b v =
      { b with inventory := (loadRecordMetadata b v).inventory } := by
  unfold loadRecordMetadata
  generalize v.Metadata = ms
  induction ms generalizing b with
  | nil => rfl
  | cons m tl ih =>
      exact backend_frame_trans (loadStream_frame b v.CensorshipRecord.Token m)
        (ih (loadStream b v.CensorshipRecord.Token m))

theorem counterOf_frame {b b1 : backend}
    (h : b1 = { b with inventory := b1.inventory }) (k : Bucket) :
    counterOf b1 k = counterOf b k := by
  rw [h]
  cases k <;> rfl

theorem sumCounters_frame {b b1 : backend}
    (h : b1 = { b with inventory := b1.inventory }) :
    sumCounters b1 = sumCounters b := by
  rw [h]
  rfl

theorem userPubkeys_frame {b b1 : backend}
    (h : b1 = { b with inventory := b1.inventory }) :
    b1.userPubkeys = b.userPubkeys := by
  rw [h]

/-- The record field of every stored entry, the inventory length and the
presence of every key survive a loader run. -/
theorem updateEntryB_inv (b : backend) (t : String)
    (f : inventoryRecord → inventoryRecord) (hf : ∀ x, (f x).record = x.record) :
    (updateEntryB b t f).inventory.length = b.inventory.length ∧
    ∀ s, (lookupKey (updateEntryB b t f).inventory s).map (fun e => e.record) =
      (lookupKey b.inventory s).map (fun e => e.record) := by
  refine ⟨length_updateEntry b.inventory t f, fun s => ?_⟩
  show (lookupKey (updateEntry b.inventory t f) s).map _ = _
  rw [lookupKey_updateEntry]
  by_cases hst : s = t
  · subst hst
    cases h : lookupKey b.inventory s with
    | none => simp
    | some v => simp [hf]
  · simp [hst]

theorem loadPropMD_inv (b : backend) (t : String) (p : List (Option MDValue)) :
    (loadPropMD b t p).1.inventory.length = b.inventory.length ∧
    ∀ s, (lookupKey (loadPropMD b t p).1.inventory s).map (fun e => e.record) =
      (lookupKey b.inventory s).map (fun e => e.record) := by
  match p with
  | [] => exact ⟨rfl, fun s => rfl⟩
  | none :: _ => exact ⟨rfl, fun s => rfl⟩
  | some (MDValue.propMD md) :: _ => exact updateEntryB_inv b t _ (fun x => rfl)
  | some (MDValue.change md) :: _ => exact ⟨rfl, fun s => rfl⟩
  | some (MDValue.voteAuth avr) :: _ => exact ⟨rfl, fun s => rfl⟩
  | some (MDValue.voteBits sv) :: _ => exact ⟨rfl, fun s => rfl⟩
  | some (MDValue.voteSnapshot svr) :: _ => exact ⟨rfl, fun s => rfl⟩

theorem loadChanges_inv (t : String) (p : List (Option MDValue)) :
    ∀ b : backend, (loadChanges b t p).1.inventory.length = b.inventory.length ∧
    ∀ s, (lookupKey (loadChanges b t p).1.inventory s).map (fun e => e.record) =
      (lookupKey b.inventory s).map (fun e => e.record) := by
  induction p with
  | nil => exact fun b => ⟨rfl, fun s => rfl⟩
  | cons hd tl ih =>
      intro b
      match hd with
      | none => exact ⟨rfl, fun s => rfl⟩
      | some (MDValue.propMD md) => exact ⟨rfl, fun s => rfl⟩
      | some (MDValue.voteAuth avr) => exact ⟨rfl, fun s => rfl⟩
      | some (MDValue.voteBits sv) => exact ⟨rfl, fun s => rfl⟩
      | some (MDValue.voteSnapshot svr) => exact ⟨rfl, fun s => rfl⟩
      | some (MDValue.change md) =>
          have hu := updateEntryB_inv b t
            (fun ir => { ir with changes := ir.changes ++ [md] }) (fun x => rfl)
          have hrec := ih (updateEntryB b t
            (fun ir => { ir with changes := ir.changes ++ [md] }))
          exact ⟨hrec.1.trans hu.1, fun s => (hrec.2 s).trans (hu.2 s)⟩

theorem loadVoteAuthorization_inv (b : backend) (t : String) (p : List (Option MDValue)) :
    (loadVoteAuthorization b t p).1.inventory.length = b.inventory.length ∧
    ∀ s, (lookupKey (loadVoteAuthorization b t p).1.inventory s).map (fun e => e.record) =
      (lookupKey b.inventory s).map (fun e => e.record) := by
  match p with
  | [] => exact ⟨rfl, fun s => rfl⟩
  | none :: _ => exact ⟨rfl, fun s => rfl⟩
  | some (MDValue.propMD md) :: _ => exact ⟨rfl, fun s => rfl⟩
  | some (MDValue.change md) :: _ => exact ⟨rfl, fun s => rfl⟩
  | some (MDValue.voteAuth avr) :: _ => exact updateEntryB_inv b t _ (fun x => rfl)
  | some (MDValue.voteBits sv) :: _ => exact ⟨rfl, fun s => rfl⟩
  | some (MDValue.voteSnapshot svr) :: _ => exact ⟨rfl, fun s => rfl⟩

theorem loadVoteBits_inv (b : backend) (t : String) (p : List (Option MDValue)) :
    (loadVoteBits b t p).1.inventory.length = b.inventory.length ∧
    ∀ s, (lookupKey (loadVoteBits b t p).1.inventory s).map (fun e => e.record) =
      (lookupKey b.inventory s).map (fun e => e.record) := by
  match p with
  | [] => exact ⟨rfl, fun s => rfl⟩
  | none :: _ => exact ⟨rfl, fun s => rfl⟩
  | some (MDValue.propMD md) :: _ => exact ⟨rfl, fun s => rfl⟩
  | some (MDValue.change md) :: _ => exact ⟨rfl, fun s => rfl⟩
  | some (MDValue.voteAuth avr) :: _ => exact ⟨rfl, fun s => rfl⟩
  | some (MDValue.voteBits sv) :: _ => exact updateEntryB_inv b t _ (fun x => rfl)
  | some (MDValue.voteSnapshot svr) :: _ => exact ⟨rfl, fun s => rfl⟩

theorem loadVoting_inv (b : backend) (t : String) (p : List (Option MDValue)) :
    (loadVoting b t p).1.inventory.length = b.inventory.length ∧
    ∀ s, (lookupKey (loadVoting b t p).1.inventory s).map (fun e => e.record) =
      (lookupKey b.inventory s).map (fun e => e.record) := by
  match p with
  | [] => exact ⟨rfl, fun s => rfl⟩
  | none :: _ => exact ⟨rfl, fun s => rfl⟩
  | some (MDValue.propMD md) :: _ => exact ⟨rfl, fun s => rfl⟩
  | some (MDValue.change md) :: _ => exact ⟨rfl, fun s => rfl⟩
  | some (MDValue.voteAuth avr) :: _ => exact ⟨rfl, fun s => rfl⟩
  | some (MDValue.voteBits sv) :: _ => exact ⟨rfl, fun s => rfl⟩
  | some (MDValue.voteSnapshot svr) :: _ => exact updateEntryB_inv b t _ (fun x => rfl)

theorem loadStream_inv (b : backend) (t : String) (m : pd.MetadataStream) :
    (loadStream b t m).inventory.length = b.inventory.length ∧
    ∀ s, (lookupKey (loadStream b t m).inventory s).map (fun e => e.record) =
      (lookupKey b.inventory s).map (fun e => e.record) := by
  unfold loadStream
  split_ifs
  · exact loadPropMD_inv b t m.Payload
  · exact loadChanges_inv t m.Payload b
  · exact loadVoteAuthorization_inv b t m.Payload
  · exact loadVoteBits_inv b t m.Payload
  · exact loadVoting_inv b t m.Payload
  · exact ⟨rfl, fun s => rfl⟩

theorem loadRecordMetadata_inv (b : backend) (v : pd.Record) :
    (loadRecordMetadata b v).inventory.length = b.inventory.length ∧
    ∀ s, (lookupKey (loadRecordMetadata b v).inventory s).map (fun e => e.record) =
      (lookupKey b.inventory s).map (fun e => e.record) := by
  unfold loadRecordMetadata
  generalize v.Metadata = ms
  induction ms generalizing b with
  | nil => exact ⟨rfl, fun s => rfl⟩
  | cons m tl ih =>
      have h1 := loadStream_inv b v.CensorshipRecord.Token m
      have h2 := ih (loadStream b v.CensorshipRecord.Token m)
      exact ⟨h2.1.trans h1.1, fun s => (h2.2 s).trans (h1.2 s)⟩

/-! ## Lemmas: counter algebra -/

theorem counterOf_executeUpdate (b : backend) (v : Int) (s : Nat) (k : Bucket) :
    counterOf (executeUpdate b v s) k =
      counterOf b k + (if bucketOf s = k then v else 0) := by
  unfold executeUpdate bucketOf
  split_ifs <;> cases k <;> simp_all [counterOf]

theorem sumCounters_executeUpdate (b : backend) (v : Int) (s : Nat) :
    sumCounters (executeUpdate b v s) = sumCounters b + v := by
  unfold executeUpdate
  split_ifs <;> simp [sumCounters] <;> ring

theorem inventory_executeUpdate (b : backend) (v : Int) (s : Nat) :
    (executeUpdate b v s).inventory = b.inventory := by
  unfold executeUpdate
  split_ifs <;> rfl

theorem userPubkeys_executeUpdate (b : backend) (v : Int) (s : Nat) :
    (executeUpdate b v s).userPubkeys = b.userPubkeys := by
  unfold executeUpdate
  split_ifs <;> rfl

theorem sumCounters_updateCountNew (b : backend) (s : Nat) :
    sumCounters (_updateInventoryCountOfPropStatus b s none) = sumCounters b + 1 :=
  sumCounters_executeUpdate b 1 (convertPropStatusFromPD s)

theorem sumCounters_updateCountOld (b : backend) (s os : Nat) :
    sumCounters (_updateInventoryCountOfPropStatus b s (some os)) = sumCounters b := by
  unfold _updateInventoryCountOfPropStatus
  rw [sumCounters_executeUpdate, sumCounters_executeUpdate]
  ring

theorem counterOf_updateCountOld (b : backend) (s os : Nat) (k : Bucket) :
    counterOf (_updateInventoryCountOfPropStatus b s (some os)) k =
      counterOf b k - (if bucketOf (convertPropStatusFromPD os) = k then 1 else 0)
        + (if bucketOf (convertPropStatusFromPD s) = k then 1 else 0) := by
  unfold _updateInventoryCountOfPropStatus
  rw [counterOf_executeUpdate, counterOf_executeUpdate]
  by_cases h1 : bucketOf (convertPropStatusFromPD os) = k <;>
    by_cases h2 : bucketOf (convertPropStatusFromPD s) = k <;> simp [h1, h2] <;> ring

theorem inventory_updateCount (b : backend) (s : Nat) (os : Option Nat) :
    (_updateInventoryCountOfPropStatus b s os).inventory = b.inventory := by
  unfold _updateInventoryCountOfPropStatus
  cases os with
  | none => exact inventory_executeUpdate ..
  | some os => rw [inventory_executeUpdate, inventory_executeUpdate]

theorem userPubkeys_updateCount (b : backend) (s : Nat) (os : Option Nat) :
    (_updateInventoryCountOfPropStatus b s os).userPubkeys = b.userPubkeys := by
  unfold _updateInventoryCountOfPropStatus
  cases os with
  | none => exact userPubkeys_executeUpdate ..
  | some os => rw [userPubkeys_executeUpdate, userPubkeys_executeUpdate]

theorem counterOf_updateCountNew (b : backend) (s : Nat) (k : Bucket) :
    counterOf (_updateInventoryCountOfPropStatus b s none) k =
      counterOf b k + (if bucketOf (convertPropStatusFromPD s) = k then 1 else 0) :=
  counterOf_executeUpdate b 1 (convertPropStatusFromPD s) k

/-! ## Lemmas: the user-count step only touches the per-user counts -/

theorem updateCountUser_cases (b : backend) (t : String) :
    (_updateCountOfUserProposals b t).1 = b ∨
    ∃ uid, (_updateCountOfUserProposals b t).1 =
      { b with numOfPropsByUserID := bumpCount b.numOfPropsByUserID uid } := by
  unfold _updateCountOfUserProposals
  cases lookupKey b.inventory t with
  | none => exact Or.inl rfl
  | some ir =>
      cases hpk : lookupKey b.userPubkeys ir.proposalMD.PublicKey with
      | none =>
          left
          simp [hpk]
      | some uid =>
          right
          exact ⟨uid, by simp [hpk]⟩

theorem sumCounters_updateCountUser (b : backend) (t : String) :
    sumCounters (_updateCountOfUserProposals b t).1 = sumCounters b := by
  rcases updateCountUser_cases b t with h | ⟨uid, h⟩
  · rw [h]
  · rw [h]
    rfl

theorem inventory_updateCountUser (b : backend) (t : String) :
    (_updateCountOfUserProposals b t).1.inventory = b.inventory := by
  rcases updateCountUser_cases b t with h | ⟨uid, h⟩ <;> rw [h]

theorem counterOf_updateCountUser (b : backend) (t : String) (k : Bucket) :
    counterOf (_updateCountOfUserProposals b t).1 k = counterOf b k := by
  rcases updateCountUser_cases b t with h | ⟨uid, h⟩ <;> rw [h] <;> cases k <;> rfl

/-! ## Lemmas: the state reached by an insert -/

theorem counterOf_updateEntryB (b : backend) (t : String)
    (f : inventoryRecord → inventoryRecord) (k : Bucket) :
    counterOf (updateEntryB b t f) k = counterOf b k := by
  cases k <;> rfl

theorem sumCounters_postInsert (b : backend) (record : pd.Record) :
    sumCounters (postInsertState b record) = sumCounters b + 1 := by
  unfold postInsertState
  rw [sumCounters_updateCountNew]
  rw [sumCounters_frame (loadRecordMetadata_frame _ record)]
  rfl

theorem length_postInsert (b : backend) (record : pd.Record) :
    (postInsertState b record).inventory.length = b.inventory.length + 1 := by
  unfold postInsertState
  rw [inventory_updateCount]
  rw [(loadRecordMetadata_inv _ record).1]
  rfl

theorem userPubkeys_postInsert (b : backend) (record : pd.Record) :
    (postInsertState b record).userPubkeys = b.userPubkeys := by
  unfold postInsertState
  rw [userPubkeys_updateCount]
  rw [userPubkeys_frame (loadRecordMetadata_frame _ record)]

theorem counterOf_postInsert (b : backend) (record : pd.Record) (k : Bucket) :
    counterOf (postInsertState b record) k =
      counterOf b k +
        (if bucketOf (convertPropStatusFromPD record.Status) = k then 1 else 0) := by
  unfold postInsertState
  rw [counterOf_updateCountNew]
  rw [counterOf_frame (loadRecordMetadata_frame _ record)]
  have h2 : counterOf
      { b with inventory :=
          (record.CensorshipRecord.Token, freshEntry record) :: b.inventory } k =
      counterOf b k := by
    cases k <;> rfl
  rw [h2]

theorem lookup_postInsert (b : backend) (record : pd.Record) :
    (lookupKey (postInsertState b record).inventory
        record.CensorshipRecord.Token).map (fun e => e.record) = some record := by
  unfold postInsertState
  rw [inventory_updateCount]
  rw [(loadRecordMetadata_inv _ record).2 record.CensorshipRecord.Token]
  simp [lookupKey, freshEntry]

theorem _newInventoryRecord_fresh (b : backend) (record : pd.Record)
    (h : lookupKey b.inventory record.CensorshipRecord.Token = none) :
    _newInventoryRecord b record =
      ((_updateCountOfUserProposals (postInsertState b record)
          record.CensorshipRecord.Token).1,
       ((_updateCountOfUserProposals (postInsertState b record)
          record.CensorshipRecord.Token).2).map
         (fun err => "_newInventoryRecord: _updateCountOfUserProposals " ++ err)) := by
  simp only [_newInventoryRecord, h]
  cases hu : _updateCountOfUserProposals (postInsertState b record)
      record.CensorshipRecord.Token with
  | mk b4 e => cases e <;> simp

theorem _updateInventoryRecord_found (b : backend) (record : pd.Record)
    (ir : inventoryRecord)
    (h : lookupKey b.inventory record.CensorshipRecord.Token = some ir) :
    _updateInventoryRecord b record =
      (loadRecordMetadata
        (updateEntryB
          (_updateInventoryCountOfPropStatus b record.Status (some ir.record.Status))
          record.CensorshipRecord.Token (fun irr => { irr with record := record }))
        record, none) := by
  simp only [_updateInventoryRecord, h]

/-- Every operation, failed or successful, preserves the equality of the
counter sum and the inventory size. -/
theorem applyOp_invariant (b : backend) (op : CacheOp)
    (h : sumCounters b = (b.inventory.length : Int)) :
    sumCounters (applyOp b op).1 = (((applyOp b op).1.inventory.length : Nat) : Int) := by
  cases op with
  | insert record =>
      show sumCounters (_newInventoryRecord b record).1 =
        (((_newInventoryRecord b record).1.inventory.length : Nat) : Int)
      cases hl : lookupKey b.inventory record.CensorshipRecord.Token with
      | some ir =>
          simp only [_newInventoryRecord, hl]
          exact h
      | none =>
          rw [_newInventoryRecord_fresh b record hl]
          show sumCounters (_updateCountOfUserProposals _ _).1 = _
          rw [sumCounters_updateCountUser]
          rw [sumCounters_postInsert]
          rw [inventory_updateCountUser]
          rw [length_postInsert]
          push_cast
          omega
  | update record =>
      show sumCounters (_updateInventoryRecord b record).1 =
        (((_updateInventoryRecord b record).1.inventory.length : Nat) : Int)
      cases hl : lookupKey b.inventory record.CensorshipRecord.Token with
      | none =>
          simp only [_updateInventoryRecord, hl]
          exact h
      | some ir =>
          rw [_updateInventoryRecord_found b record ir hl]
          show sumCounters (loadRecordMetadata _ record) =
            (((loadRecordMetadata _ record).inventory.length : Nat) : Int)
          rw [sumCounters_frame (loadRecordMetadata_frame _ record)]
          rw [(loadRecordMetadata_inv _ record).1]
          show sumCounters (_updateInventoryCountOfPropStatus b record.Status
            (some ir.record.Status)) =
            (((updateEntry _ _ _).length : Nat) : Int)
          rw [sumCounters_updateCountOld]
          rw [length_updateEntry]
          rw [inventory_updateCount]
          exact h

theorem runOps_invariant (ops : List CacheOp) :
    ∀ b : backend, sumCounters b = (b.inventory.length : Int) →
      sumCounters (runOps b ops) = ((runOps b ops).inventory.length : Int) := by
  induction ops with
  | nil => exact fun b h => h
  | cons op rest ih => exact fun b h => ih (applyOp b op).1 (applyOp_invariant b op h)

/-- Claim C1: starting from an empty cache, after any sequence of successful
insert and update operations the sum of the six status-bucket counters
equals the number of inventory entries; and an update found in the cache
decrements the bucket of the old status and increments the bucket of the
new status in the same guarded step that writes the record snapshot. -/
theorem claim_C1 :
    (∀ (ups : List (String × String)) (ops : List CacheOp),
      allOk (initialBackend ups) ops = true →
      sumCounters (runOps (initialBackend ups) ops) =
        ((runOps (initialBackend ups) ops).inventory.length : Int)) ∧
    (∀ (b : backend) (record : pd.Record) (ir : inventoryRecord),
      lookupKey b.inventory record.CensorshipRecord.Token = some ir →
      (_updateInventoryRecord b record).2 = none ∧
      (∀ k : Bucket, counterOf (_updateInventoryRecord b record).1 k =
        counterOf b k
          - (if bucketOf (convertPropStatusFromPD ir.record.Status) = k then 1 else 0)
          + (if bucketOf (convertPropStatusFromPD record.Status) = k then 1 else 0)) ∧
      (lookupKey (_updateInventoryRecord b record).1.inventory
          record.CensorshipRecord.Token).map (fun e => e.record) = some record) := by
  constructor
  · intro ups ops _
    exact runOps_invariant ops (initialBackend ups) rfl
  · intro b record ir h
    rw [_updateInventoryRecord_found b record ir h]
    refine ⟨rfl, fun k => ?_, ?_⟩
    · show counterOf (loadRecordMetadata _ record) k = _
      rw [counterOf_frame (loadRecordMetadata_frame _ record) k]
      rw [counterOf_updateEntryB]
      rw [counterOf_updateCountOld]
    · show (lookupKey (loadRecordMetadata _ record).inventory _).map _ = _
      rw [(loadRecordMetadata_inv _ record).2 record.CensorshipRecord.Token]
      show (lookupKey (updateEntry _ _ _) _).map _ = _
      rw [lookupKey_updateEntry]
      rw [if_pos rfl]
      rw [inventory_updateCount]
      rw [h]
      rfl

/-- Witness for claim C1 at a concrete run: insert t1 unreviewed, update it
to public; and the update of the stored t1 succeeds. -/
theorem claim_C1_witness :
    (allOk (initialBackend upsEx) opsEx = true ∧
     sumCounters (runOps (initialBackend upsEx) opsEx) =
       ((runOps (initialBackend upsEx) opsEx).inventory.length : Int)) ∧
    (lookupKey bEx1.inventory recEx1Pub.CensorshipRecord.Token = some irEx1 ∧
     (_updateInventoryRecord bEx1 recEx1Pub).2 = none) :=
  ⟨⟨by decide, claim_C1.1 upsEx opsEx (by decide)⟩,
   ⟨by decide, (claim_C1.2 bEx1 recEx1Pub irEx1 (by decide)).1⟩⟩

/-- Claim C2: inserting a token already present fails with the
duplicate-token error and leaves the whole cache state unchanged. -/
theorem claim_C2 (b : backend) (record : pd.Record)
    (h : (lookupKey b.inventory record.CensorshipRecord.Token).isSome = true) :
    newInventoryRecord b record =
      (b, some ("newInventoryRecord: duplicate token: " ++
        record.CensorshipRecord.Token)) := by
  show _newInventoryRecord b record = _
  cases hl : lookupKey b.inventory record.CensorshipRecord.Token with
  | none => rw [hl] at h; simp at h
  | some ir => simp only [_newInventoryRecord, hl]

/-- Witness for claim C2: inserting t1 into a backend already holding it. -/
theorem claim_C2_witness :
    (lookupKey bEx1.inventory recEx1.CensorshipRecord.Token).isSome = true ∧
    newInventoryRecord bEx1 recEx1 =
      (bEx1, some ("newInventoryRecord: duplicate token: " ++
        recEx1.CensorshipRecord.Token)) :=
  ⟨by decide, claim_C2 bEx1 recEx1 (by decide)⟩

/-- Claim C10: on a fresh token whose author public key resolves to no user
id, `_newInventoryRecord` reports an error, yet the entry is already stored
and the status bucket already incremented: the cache is mutated despite the
reported failure. -/
theorem claim_C10 (b : backend) (record : pd.Record)
    (hfresh : lookupKey b.inventory record.CensorshipRecord.Token = none)
    (hpk : ∀ ir, lookupKey (postInsertState b record).inventory
        record.CensorshipRecord.Token = some ir →
      lookupKey b.userPubkeys ir.proposalMD.PublicKey = none) :
    ((_newInventoryRecord b record).2).isSome = true ∧
    (lookupKey (_newInventoryRecord b record).1.inventory
        record.CensorshipRecord.Token).isSome = true ∧
    (_newInventoryRecord b record).1.inventory.length = b.inventory.length + 1 ∧
    counterOf (_newInventoryRecord b record).1
        (bucketOf (convertPropStatusFromPD record.Status)) =
      counterOf b (bucketOf (convertPropStatusFromPD record.Status)) + 1 := by
  rw [_newInventoryRecord_fresh b record hfresh]
  have hsome : (lookupKey (postInsertState b record).inventory
      record.CensorshipRecord.Token).isSome = true := by
    have := lookup_postInsert b record
    cases hl : lookupKey (postInsertState b record).inventory
        record.CensorshipRecord.Token with
    | none => rw [hl] at this; simp at this
    | some ir => rfl
  obtain ⟨ir0, hir0⟩ := Option.isSome_iff_exists.mp hsome
  have herr : _updateCountOfUserProposals (postInsertState b record)
      record.CensorshipRecord.Token =
      (postInsertState b record, some "User not found ") := by
    unfold _updateCountOfUserProposals
    rw [hir0]
    have hnone2 : lookupKey (postInsertState b record).userPubkeys
        ir0.proposalMD.PublicKey = none := by
      rw [userPubkeys_postInsert]
      exact hpk ir0 hir0
    simp [hnone2]
  rw [herr]
  refine ⟨rfl, ?_, ?_, ?_⟩
  · exact hsome
  · exact length_postInsert b record
  · rw [counterOf_postInsert]
    rw [if_pos rfl]

/-- Witness for claim C10: a fresh insert into an empty backend with an
empty user directory. -/
theorem claim_C10_witness :
    lookupKey (initialBackend []).inventory recEx1.CensorshipRecord.Token = none ∧
    ((_newInventoryRecord (initialBackend []) recEx1).2).isSome = true ∧
    (lookupKey (_newInventoryRecord (initialBackend []) recEx1).1.inventory
        recEx1.CensorshipRecord.Token).isSome = true := by
  have h := claim_C10 (initialBackend []) recEx1 (by decide) (fun ir _ => rfl)
  exact ⟨by decide, h.1, h.2.1⟩

/-- Claim C8: `loadRecordMetadata` processes every metadata stream even when
some fail: splitting the stream list splits the run, so no stream outcome
stops the later streams; an unrecognized stream id leaves the state
unchanged; an empty payload is success storing nothing; a malformed head
is an error with no mutation for every single-value loader and for the
changes loader. -/
theorem claim_C8 :
    (∀ (b : backend) (status : Nat) (ts : Int) (t : String)
        (l1 l2 : List pd.MetadataStream),
      loadRecordMetadata b
          { Status := status, Timestamp := ts,
            CensorshipRecord := { Token := t }, Metadata := l1 ++ l2 } =
        loadRecordMetadata
          (loadRecordMetadata b
            { Status := status, Timestamp := ts,
              CensorshipRecord := { Token := t }, Metadata := l1 })
          { Status := status, Timestamp := ts,
            CensorshipRecord := { Token := t }, Metadata := l2 }) ∧
    (∀ (b : backend) (t : String) (m : pd.MetadataStream),
      m.ID ≠ mdStreamGeneral → m.ID ≠ mdStreamChanges →
      m.ID ≠ MDStreamAuthorizeVote → m.ID ≠ MDStreamVoteBits →
      m.ID ≠ MDStreamVoteSnapshot →
      loadStream b t m = b) ∧
    (∀ (b : backend) (t : String),
      loadPropMD b t [] = (b, none) ∧
      loadChanges b t [] = (b, none) ∧
      loadVoteAuthorization b t [] = (b, none) ∧
      loadVoteBits b t [] = (b, none) ∧
      loadVoting b t [] = (b, none)) ∧
    (∀ (b : backend) (t : String) (rest : List (Option MDValue)),
      (loadPropMD b t (none :: rest)).1 = b ∧
      ((loadPropMD b t (none :: rest)).2).isSome = true ∧
      (loadChanges b t (none :: rest)).1 = b ∧
      ((loadChanges b t (none :: rest)).2).isSome = true ∧
      (loadVoteAuthorization b t (none :: rest)).1 = b ∧
      ((loadVoteAuthorization b t (none :: rest)).2).isSome = true ∧
      (loadVoteBits b t (none :: rest)).1 = b ∧
      ((loadVoteBits b t (none :: rest)).2).isSome = true ∧
      (loadVoting b t (none :: rest)).1 = b ∧
      ((loadVoting b t (none :: rest)).2).isSome = true) := by
  refine ⟨?_, ?_, ?_, ?_⟩
  · intro b status ts t l1 l2
    simp [loadRecordMetadata, List.foldl_append]
  · intro b t m h1 h2 h3 h4 h5
    simp [loadStream, h1, h2, h3, h4, h5]
  · intro b t
    exact ⟨rfl, rfl, rfl, rfl, rfl⟩
  · intro b t rest
    exact ⟨rfl, rfl, rfl, rfl, rfl, rfl, rfl, rfl, rfl, rfl⟩

/-! ## Lemmas: the comment tally -/

theorem foldl_pickLatest_some (g : List www.LikeComment) :
    ∀ c : www.LikeComment, g.foldl pickLatest (some c) ≠ none := by
  induction g with
  | nil => intro c h; cases h
  | cons e g ih =>
      intro c
      show g.foldl pickLatest
        (if c.Timestamp ≤ e.Timestamp then some e else some c) ≠ none
      by_cases h : c.Timestamp ≤ e.Timestamp
      · rw [if_pos h]
        exact ih e
      · rw [if_neg h]
        exact ih c

theorem foldl_pickLatest_none_iff (g : List www.LikeComment) :
    g.foldl pickLatest none = none ↔ g = [] := by
  cases g with
  | nil => simp
  | cons e g =>
      constructor
      · intro h
        exact absurd h (foldl_pickLatest_some g e)
      · intro h
        cases h

/-- The fold result is an element of the group (or the seed) whose timestamp
bounds the whole group and the seed. -/
theorem foldl_pickLatest_spec (g : List www.LikeComment) :
    ∀ (cur : Option www.LikeComment) (b : www.LikeComment),
      g.foldl pickLatest cur = some b →
      (cur = some b ∨ b ∈ g) ∧
      (∀ e ∈ g, e.Timestamp ≤ b.Timestamp) ∧
      (∀ c, cur = some c → c.Timestamp ≤ b.Timestamp) := by
  induction g with
  | nil =>
      intro cur b h
      refine ⟨Or.inl h, by simp, fun c hc => ?_⟩
      have hb : some c = some b := hc.symm.trans h
      cases hb
      exact le_refl _
  | cons e g ih =>
      intro cur b h
      obtain ⟨IH1, IH2, IH3⟩ := ih (pickLatest cur e) b h
      cases cur with
      | none =>
          have hpe : pickLatest none e = some e := rfl
          rw [hpe] at IH1 IH3
          have hee : e.Timestamp ≤ b.Timestamp := IH3 e rfl
          refine ⟨?_, ?_, ?_⟩
          · rcases IH1 with h1 | h1
            · cases h1
              exact Or.inr (List.mem_cons_self _ _)
            · exact Or.inr (List.mem_cons_of_mem _ h1)
          · intro x hx
            rcases List.mem_cons.mp hx with hx | hx
            · cases hx
              exact hee
            · exact IH2 x hx
          · intro c hc
            cases hc
      | some c0 =>
          by_cases hts : c0.Timestamp ≤ e.Timestamp
          · have hpe : pickLatest (some c0) e = some e := by
              show (if c0.Timestamp ≤ e.Timestamp then some e else some c0) = some e
              rw [if_pos hts]
            rw [hpe] at IH1 IH3
            have hee : e.Timestamp ≤ b.Timestamp := IH3 e rfl
            refine ⟨?_, ?_, ?_⟩
            · rcases IH1 with h1 | h1
              · cases h1
                exact Or.inr (List.mem_cons_self _ _)
              · exact Or.inr (List.mem_cons_of_mem _ h1)
            · intro x hx
              rcases List.mem_cons.mp hx with hx | hx
              · cases hx
                exact hee
              · exact IH2 x hx
            · intro c hc
              cases hc
              exact le_trans hts hee
          · have hpe : pickLatest (some c0) e = some c0 := by
              show (if c0.Timestamp ≤ e.Timestamp then some e else some c0) = some c0
              rw [if_neg hts]
            rw [hpe] at IH1 IH3
            have hc0 : c0.Timestamp ≤ b.Timestamp := IH3 c0 rfl
            refine ⟨?_, ?_, ?_⟩
            · rcases IH1 with h1 | h1
              · cases h1
                exact Or.inl rfl
              · exact Or.inr (List.mem_cons_of_mem _ h1)
            · intro x hx
              rcases List.mem_cons.mp hx with hx | hx
              · cases hx
                exact le_trans (le_of_not_le hts) hc0
              · exact IH2 x hx
            · intro c hc
              cases hc
              exact hc0

/-- Members of a like group carry the comment id and user key of the
group. -/
theorem mem_likesOfPair {l : List www.LikeComment} {cid uid : String}
    {e : www.LikeComment} (h : e ∈ likesOfPair l cid uid) :
    e ∈ l ∧ e.CommentID = cid ∧ e.PublicKey = uid := by
  obtain ⟨hm, hp⟩ := List.mem_filter.mp h
  rw [Bool.and_eq_true, beq_iff_eq, beq_iff_eq] at hp
  exact ⟨hm, hp.1, hp.2⟩

/-- With no timestamp tie inside a (comment, user) group, the resultant
event is invariant under permutation of the event list. -/
theorem resultantLike_perm (l1 l2 : List www.LikeComment) (cid uid : String)
    (hp : List.Perm l1 l2)
    (hinj : ∀ e1, e1 ∈ l1 → ∀ e2, e2 ∈ l1 → e1.CommentID = e2.CommentID →
      e1.PublicKey = e2.PublicKey → e1.Timestamp = e2.Timestamp → e1 = e2) :
    resultantLike l1 cid uid = resultantLike l2 cid uid := by
  have hgp : List.Perm (likesOfPair l1 cid uid) (likesOfPair l2 cid uid) :=
    hp.filter _
  cases h1 : resultantLike l1 cid uid with
  | none =>
      have hg1 : likesOfPair l1 cid uid = [] := (foldl_pickLatest_none_iff _).mp h1
      have hg2 : likesOfPair l2 cid uid = [] := by
        rw [hg1] at hgp
        exact hgp.symm.eq_nil
      show none = resultantLike l2 cid uid
      unfold resultantLike
      rw [hg2]
      rfl
  | some b1 =>
      cases h2 : resultantLike l2 cid uid with
      | none =>
          have hg2 : likesOfPair l2 cid uid = [] := (foldl_pickLatest_none_iff _).mp h2
          have hg1 : likesOfPair l1 cid uid = [] := by
            rw [hg2] at hgp
            exact hgp.eq_nil
          rw [resultantLike, hg1] at h1
          cases h1
      | some b2 =>
          obtain ⟨m1, bd1, _⟩ := foldl_pickLatest_spec (likesOfPair l1 cid uid) none b1 h1
          obtain ⟨m2, bd2, _⟩ := foldl_pickLatest_spec (likesOfPair l2 cid uid) none b2 h2
          have hb1 : b1 ∈ likesOfPair l1 cid uid := by
            rcases m1 with h | h
            · cases h
            · exact h
          have hb2g2 : b2 ∈ likesOfPair l2 cid uid := by
            rcases m2 with h | h
            · cases h
            · exact h
          have hb2 : b2 ∈ likesOfPair l1 cid uid := hgp.mem_iff.mpr hb2g2
          have hle1 : b1.Timestamp ≤ b2.Timestamp :=
            bd2 b1 (hgp.mem_iff.mp hb1)
          have hle2 : b2.Timestamp ≤ b1.Timestamp := bd1 b2 hb2
          obtain ⟨hm1, hc1, hu1⟩ := mem_likesOfPair hb1
          obtain ⟨hm2, hc2, hu2⟩ := mem_likesOfPair hb2
          have : b1 = b2 :=
            hinj b1 hm1 b2 hm2 (hc1.trans hc2.symm) (hu1.trans hu2.symm)
              (le_antisymm hle1 hle2)
          rw [this]

theorem usersOf_perm {l1 l2 : List www.LikeComment} (hp : List.Perm l1 l2)
    (cid : String) : List.Perm (usersOf l1 cid) (usersOf l2 cid) :=
  ((hp.filter _).map _).dedup

/-- Claim C3 (amended): the tally counts one resultant action per
(comment id, user public key) pair — the event with the latest timestamp,
a tie resolved toward the later-ingested event — and the per-comment totals
are independent of ingestion order provided no two distinct events of the
same pair share a timestamp; for the events u1 up at t=1, u1 down at t=2,
u2 up at t=3 the tally for c1 is up=1, down=1. -/
theorem claim_C3 :
    (∀ (l1 l2 : List www.LikeComment) (cid : String),
      List.Perm l1 l2 →
      (∀ e1, e1 ∈ l1 → ∀ e2, e2 ∈ l1 → e1.CommentID = e2.CommentID →
        e1.PublicKey = e2.PublicKey → e1.Timestamp = e2.Timestamp → e1 = e2) →
      commentTally l1 cid = commentTally l2 cid) ∧
    commentTally [likeEx1, likeEx2, likeEx3] "c1" = (1, 1) := by
  constructor
  · intro l1 l2 cid hp hinj
    have hres : ∀ uid, resultantAction l1 cid uid = resultantAction l2 cid uid := by
      intro uid
      unfold resultantAction
      rw [resultantLike_perm l1 l2 cid uid hp hinj]
    have hu := usersOf_perm hp cid
    unfold commentTally
    have hfst : ∀ z : Int,
        (usersOf l1 cid).countP (fun u => resultantAction l1 cid u == some z) =
        (usersOf l2 cid).countP (fun u => resultantAction l2 cid u == some z) := by
      intro z
      rw [hu.countP_eq]
      exact List.countP_congr (fun u _ => by rw [hres u])
    rw [hfst 1, hfst (-1)]
  · decide

/-- Counterexample to claim C3 as stated: two events of the same pair share
a timestamp, and swapping their ingestion order swaps the tally. -/
theorem claim_C3_counterexample :
    List.Perm [likeTieA, likeTieB] [likeTieB, likeTieA] ∧
    commentTally [likeTieA, likeTieB] "c1" ≠
      commentTally [likeTieB, likeTieA] "c1" :=
  ⟨List.Perm.swap likeTieB likeTieA [], by decide⟩

/-- Witness for claim C3: the permutation invariance applied to a concrete
tie-free reordering of the example events. -/
theorem claim_C3_witness :
    commentTally [likeEx1, likeEx2, likeEx3] "c1" =
      commentTally [likeEx3, likeEx1, likeEx2] "c1" :=
  claim_C3.1 [likeEx1, likeEx2, likeEx3] [likeEx3, likeEx1, likeEx2] "c1"
    (by decide) (by decide)

/-- Witness for claim C8: a stream with the unrecognized id 99 is skipped
on a concrete backend. -/
theorem claim_C8_witness :
    ((99 : Nat) ≠ mdStreamGeneral ∧ (99 : Nat) ≠ mdStreamChanges ∧
     (99 : Nat) ≠ MDStreamAuthorizeVote ∧ (99 : Nat) ≠ MDStreamVoteBits ∧
     (99 : Nat) ≠ MDStreamVoteSnapshot) ∧
    loadStream bEx1 "t1" { ID := 99, Payload := [none] } = bEx1 :=
  ⟨⟨by decide, by decide, by decide, by decide, by decide⟩,
   claim_C8.2.1 bEx1 "t1" { ID := 99, Payload := [none] }
     (by decide) (by decide) (by decide) (by decide) (by decide)⟩

/-! ## Lemmas: idempotence of the tally pass -/

theorem lookupKey_updateEntry_map {κ α β : Type} [DecidableEq κ]
    (l : List (κ × α)) (t : κ) (f : α → α) (proj : α → β)
    (hf : ∀ x, proj (f x) = proj x) (s : κ) :
    (lookupKey (updateEntry l t f) s).map proj = (lookupKey l s).map proj := by
  rw [lookupKey_updateEntry]
  by_cases hst : s = t
  · subst hst
    cases h : lookupKey l s with
    | none => simp
    | some v => simp [hf]
  · simp [hst]

/-- `_updateResultsForCommentLike` either fails leaving the state unchanged
or writes the recomputed tally over the liked comment. -/
theorem step_cases (b : backend) (l : www.LikeComment) :
    ((_updateResultsForCommentLike b l).1 = b ∧
     ((_updateResultsForCommentLike b l).2).isSome = true) ∨
    (∃ ir c, lookupKey b.inventory l.Token = some ir ∧
      lookupKey ir.comments l.CommentID = some c ∧
      _updateResultsForCommentLike b l =
        (writeLike b l.Token l.CommentID (writtenComment ir l.CommentID c), none)) := by
  cases h1 : lookupKey b.inventory l.Token with
  | none =>
      left
      constructor
      · show (_updateResultsForCommentLike b l).1 = b
        simp [_updateResultsForCommentLike, h1]
      · show ((_updateResultsForCommentLike b l).2).isSome = true
        simp [_updateResultsForCommentLike, h1]
  | some ir =>
      cases h2 : lookupKey ir.comments l.CommentID with
      | none =>
          left
          constructor
          · show (_updateResultsForCommentLike b l).1 = b
            simp [_updateResultsForCommentLike, h1, h2]
          · show ((_updateResultsForCommentLike b l).2).isSome = true
            simp [_updateResultsForCommentLike, h1, h2]
      | some c =>
          right
          refine ⟨ir, c, rfl, h2, ?_⟩
          simp only [_updateResultsForCommentLike, h1, h2]
          rfl

/-- Evaluate a successful tally step. -/
theorem step_eval (b : backend) (l : www.LikeComment) (ir : inventoryRecord)
    (c : www.Comment) (h1 : lookupKey b.inventory l.Token = some ir)
    (h2 : lookupKey ir.comments l.CommentID = some c) :
    _updateResultsForCommentLike b l =
      (writeLike b l.Token l.CommentID (writtenComment ir l.CommentID c), none) := by
  simp only [_updateResultsForCommentLike, h1, h2]
  rfl

/-- Writing a comment value equal to the stored one changes nothing. -/
theorem writeLike_fix (b : backend) (tok cid : String) (ir : inventoryRecord)
    (c : www.Comment) (h1 : lookupKey b.inventory tok = some ir)
    (h2 : lookupKey ir.comments cid = some c) :
    writeLike b tok cid c = b := by
  have hfx : writtenEntry ir cid c = ir := by
    show { ir with comments := insertReplace ir.comments cid c } = ir
    rw [insertReplace_self ir.comments cid c h2]
  show updateEntryB b tok (fun irr => writtenEntry irr cid c) = b
  unfold updateEntryB
  rw [updateEntry_fix b.inventory tok _ ir h1 hfx]

/-- A step that changed nothing wrote back exactly the stored comment. -/
theorem fixed_comment_eq (b : backend) (tok cid : String) (ir : inventoryRecord)
    (c cw : www.Comment) (h1 : lookupKey b.inventory tok = some ir)
    (h2 : lookupKey ir.comments cid = some c)
    (hW : writeLike b tok cid cw = b) :
    cw = c := by
  have hinv : updateEntry b.inventory tok (fun irr => writtenEntry irr cid cw) =
      b.inventory := congrArg backend.inventory hW
  have hl := lookupKey_updateEntry b.inventory tok tok
    (fun irr => writtenEntry irr cid cw)
  rw [hinv, if_pos rfl, h1] at hl
  have hire : ir = writtenEntry ir cid cw := Option.some.inj hl
  have hcom : ir.comments = insertReplace ir.comments cid cw :=
    congrArg inventoryRecord.comments hire
  have hlc : lookupKey (insertReplace ir.comments cid cw) cid = some cw := by
    rw [lookupKey_insertReplace, if_pos rfl]
  rw [← hcom, h2] at hlc
  exact (Option.some.inj hlc).symm

/-- Looking the written token up yields the written entry. -/
theorem lookup_writeLike_self (b : backend) (tok tok2 cid : String)
    (cw : www.Comment) (ir : inventoryRecord)
    (h1 : lookupKey b.inventory tok = some ir) (he : tok2 = tok) :
    lookupKey (writeLike b tok cid cw).inventory tok2 =
      some (writtenEntry ir cid cw) := by
  show lookupKey (updateEntry b.inventory tok _) tok2 = _
  rw [lookupKey_updateEntry, if_pos he, h1]
  rfl

/-- Looking another token up is unaffected by the write. -/
theorem lookup_writeLike_other (b : backend) (tok tok2 cid : String)
    (cw : www.Comment) (hne : ¬tok2 = tok) :
    lookupKey (writeLike b tok cid cw).inventory tok2 =
      lookupKey b.inventory tok2 := by
  show lookupKey (updateEntry b.inventory tok _) tok2 = _
  rw [lookupKey_updateEntry, if_neg hne]

/-- Looking the written comment id up in the written entry. -/
theorem lookup_writtenEntry_self (ir : inventoryRecord) (cid cid2 : String)
    (cw : www.Comment) (he : cid2 = cid) :
    lookupKey (writtenEntry ir cid cw).comments cid2 = some cw := by
  show lookupKey (insertReplace ir.comments cid cw) cid2 = _
  rw [lookupKey_insertReplace, if_pos he]

/-- Looking another comment id up in the written entry. -/
theorem lookup_writtenEntry_other (ir : inventoryRecord) (cid cid2 : String)
    (cw : www.Comment) (hne : ¬cid2 = cid) :
    lookupKey (writtenEntry ir cid cw).comments cid2 = lookupKey ir.comments cid2 := by
  show lookupKey (insertReplace ir.comments cid cw) cid2 = _
  rw [lookupKey_insertReplace, if_neg hne]

/-- A successful step leaves its own like fixed: running it again changes
nothing. -/
theorem step_fix_self (b b' : backend) (l : www.LikeComment)
    (h : _updateResultsForCommentLike b l = (b', none)) :
    _updateResultsForCommentLike b' l = (b', none) := by
  rcases step_cases b l with ⟨_, hsome⟩ | ⟨ir, c, h1, h2, heq⟩
  · rw [h] at hsome
    cases hsome
  · have hb' : b' = writeLike b l.Token l.CommentID (writtenComment ir l.CommentID c) := by
      rw [heq] at h
      exact (Prod.mk.injEq _ _ _ _ ▸ h).1.symm
    subst hb'
    have hlk := lookup_writeLike_self b l.Token l.Token l.CommentID
      (writtenComment ir l.CommentID c) ir h1 rfl
    have hlc := lookup_writtenEntry_self ir l.CommentID l.CommentID
      (writtenComment ir l.CommentID c) rfl
    rw [step_eval _ l _ _ hlk hlc]
    have hwc : writtenComment (writtenEntry ir l.CommentID (writtenComment ir l.CommentID c))
        l.CommentID (writtenComment ir l.CommentID c) =
        writtenComment ir l.CommentID c := rfl
    rw [hwc]
    rw [writeLike_fix _ l.Token l.CommentID _ _ hlk hlc]

/-- A like fixed before another successful step stays fixed after it. -/
theorem step_fix_persist (b b' : backend) (l l' : www.LikeComment)
    (hstep : _updateResultsForCommentLike b l' = (b', none))
    (hfix : _updateResultsForCommentLike b l = (b, none)) :
    _updateResultsForCommentLike b' l = (b', none) := by
  rcases step_cases b l' with ⟨_, hsome⟩ | ⟨ir', c', h1', h2', heq'⟩
  · rw [hstep] at hsome
    cases hsome
  · have hb' : b' = writeLike b l'.Token l'.CommentID (writtenComment ir' l'.CommentID c') := by
      rw [heq'] at hstep
      exact (Prod.mk.injEq _ _ _ _ ▸ hstep).1.symm
    rcases step_cases b l with ⟨_, hsome⟩ | ⟨ir, c, h1, h2, heq⟩
    · rw [hfix] at hsome
      cases hsome
    · have hWb : writeLike b l.Token l.CommentID (writtenComment ir l.CommentID c) = b := by
        rw [heq] at hfix
        exact (Prod.mk.injEq _ _ _ _ ▸ hfix).1
      have hwc : writtenComment ir l.CommentID c = c :=
        fixed_comment_eq b l.Token l.CommentID ir c _ h1 h2 hWb
      subst hb'
      by_cases htok : l.Token = l'.Token
      · have hir : ir = ir' := by
          rw [htok] at h1
          rw [h1] at h1'
          exact Option.some.inj h1'
        subst hir
        have hlk := lookup_writeLike_self b l'.Token l.Token l'.CommentID
          (writtenComment ir l'.CommentID c') ir h1' htok
        by_cases hcid : l.CommentID = l'.CommentID
        · have hcc : c = c' := by
            rw [hcid] at h2
            rw [h2] at h2'
            exact Option.some.inj h2'
          subst hcc
          have hlc := lookup_writtenEntry_self ir l'.CommentID l.CommentID
            (writtenComment ir l'.CommentID c) hcid
          rw [step_eval _ l _ _ hlk hlc]
          have hwc2 : writtenComment
              (writtenEntry ir l'.CommentID (writtenComment ir l'.CommentID c))
              l.CommentID (writtenComment ir l'.CommentID c) =
              writtenComment ir l'.CommentID c := by
            show writtenComment ir l.CommentID (writtenComment ir l'.CommentID c) =
              writtenComment ir l'.CommentID c
            rw [hcid]
            rfl
          rw [hwc2]
          rw [writeLike_fix _ l.Token l.CommentID _ _ hlk hlc]
        · have hlc : lookupKey
              (writtenEntry ir l'.CommentID (writtenComment ir l'.CommentID c')).comments
              l.CommentID = some c := by
            rw [lookup_writtenEntry_other ir l'.CommentID l.CommentID _ hcid]
            exact h2
          rw [step_eval _ l _ _ hlk hlc]
          have hwc2 : writtenComment
              (writtenEntry ir l'.CommentID (writtenComment ir l'.CommentID c'))
              l.CommentID c = c := hwc
          rw [hwc2]
          rw [writeLike_fix _ l.Token l.CommentID _ _ hlk hlc]
      · have hlk : lookupKey (writeLike b l'.Token l'.CommentID
            (writtenComment ir' l'.CommentID c')).inventory l.Token = some ir := by
          rw [lookup_writeLike_other b l'.Token l.Token l'.CommentID _ htok]
          exact h1
        rw [step_eval _ l _ _ hlk h2]
        have hwc2 : writtenComment ir l.CommentID c = c := hwc
        rw [hwc2]
        rw [writeLike_fix _ l.Token l.CommentID _ _ hlk h2]

/-- A successful run keeps every already-fixed like fixed. -/
theorem processLikesList_preserves_fix (ls : List www.LikeComment) :
    ∀ (b b1 : backend) (l : www.LikeComment),
      processLikesList b ls = (b1, none) →
      _updateResultsForCommentLike b l = (b, none) →
      _updateResultsForCommentLike b1 l = (b1, none) := by
  induction ls with
  | nil =>
      intro b b1 l h hfix
      have hb : b = b1 := (Prod.mk.injEq _ _ _ _ ▸ h).1
      rw [← hb]
      exact hfix
  | cons l0 rest ih =>
      intro b b1 l h hfix
      cases hs : _updateResultsForCommentLike b l0 with
      | mk b2 e =>
          cases e with
          | some err =>
              rw [processLikesList, hs] at h
              cases (Prod.mk.injEq _ _ _ _ ▸ h).2
          | none =>
              rw [processLikesList, hs] at h
              exact ih b2 b1 l h (step_fix_persist b b2 l l0 hs hfix)

/-- After a successful run every processed like is fixed in the final
state. -/
theorem processLikesList_all_fixed (ls : List www.LikeComment) :
    ∀ (b b1 : backend), processLikesList b ls = (b1, none) →
      ∀ l ∈ ls, _updateResultsForCommentLike b1 l = (b1, none) := by
  induction ls with
  | nil => intro b b1 _ l hl; cases hl
  | cons l0 rest ih =>
      intro b b1 h l hl
      cases hs : _updateResultsForCommentLike b l0 with
      | mk b2 e =>
          cases e with
          | some err =>
              rw [processLikesList, hs] at h
              cases (Prod.mk.injEq _ _ _ _ ▸ h).2
          | none =>
              rw [processLikesList, hs] at h
              rcases List.mem_cons.mp hl with hl0 | hlr
              · subst hl0
                exact processLikesList_preserves_fix rest b2 b1 l h
                  (step_fix_self b b2 l hs)
              · exact ih b2 b1 h l hlr

/-- Running the loop over likes that are all fixed changes nothing. -/
theorem processLikesList_fixed (ls : List www.LikeComment) :
    ∀ b1 : backend, (∀ l ∈ ls, _updateResultsForCommentLike b1 l = (b1, none)) →
      processLikesList b1 ls = (b1, none) := by
  induction ls with
  | nil => intro b1 _; rfl
  | cons l0 rest ih =>
      intro b1 hfix
      rw [processLikesList, hfix l0 (List.mem_cons_self _ _)]
      exact ih b1 (fun l hl => hfix l (List.mem_cons_of_mem _ hl))

/-- The tally step never changes the stored like events of any entry. -/
theorem step_commentsLikes (b : backend) (l : www.LikeComment) (tok : String) :
    (lookupKey (_updateResultsForCommentLike b l).1.inventory tok).map
      (fun ir => ir.commentsLikes) =
    (lookupKey b.inventory tok).map (fun ir => ir.commentsLikes) := by
  rcases step_cases b l with ⟨hst, _⟩ | ⟨ir, c, _, _, heq⟩
  · rw [hst]
  · rw [heq]
    exact lookupKey_updateEntry_map b.inventory l.Token
      (fun irr => writtenEntry irr l.CommentID (writtenComment ir l.CommentID c))
      (fun x => x.commentsLikes) (fun x => rfl) tok

/-- Nor does the whole loop. -/
theorem processLikesList_commentsLikes (ls : List www.LikeComment) :
    ∀ (b : backend) (tok : String),
      (lookupKey (processLikesList b ls).1.inventory tok).map
        (fun ir => ir.commentsLikes) =
      (lookupKey b.inventory tok).map (fun ir => ir.commentsLikes) := by
  induction ls with
  | nil => intro b tok; rfl
  | cons l0 rest ih =>
      intro b tok
      cases hs : _updateResultsForCommentLike b l0 with
      | mk b2 e =>
          have hb2 : (_updateResultsForCommentLike b l0).1 = b2 := by rw [hs]
          have hstep := step_commentsLikes b l0 tok
          rw [hb2] at hstep
          cases e with
          | some err =>
              rw [processLikesList, hs]
              exact hstep
          | none =>
              rw [processLikesList, hs]
              exact (ih b2 tok).trans hstep

/-- Claim C4: the comment tally pass is idempotent: a successful run of
`_processCommentsLikesResults` is a fixed point, so running it twice on the
unchanged like events yields exactly the state, and hence the totals, of
running it once. -/
theorem claim_C4 (b b1 : backend) (token : String)
    (h : _processCommentsLikesResults b token = (b1, none)) :
    _processCommentsLikesResults b1 token = (b1, none) := by
  unfold _processCommentsLikesResults at h ⊢
  cases h0 : lookupKey b.inventory token with
  | none =>
      rw [h0] at h
      have h2 : (b, some ("inventory record not found: " ++ token)) =
          ((b1, none) : backend × Option String) := h
      cases (Prod.mk.injEq _ _ _ _ ▸ h2).2
  | some ir =>
      rw [h0] at h
      have hrun : processLikesList b (allLikes ir) = (b1, none) := h
      have hcl0 := processLikesList_commentsLikes (allLikes ir) b token
      rw [hrun, h0] at hcl0
      have hcl : (lookupKey b1.inventory token).map (fun e => e.commentsLikes) =
          (some ir).map (fun e => e.commentsLikes) := hcl0
      cases h1 : lookupKey b1.inventory token with
      | none =>
          rw [h1] at hcl
          simp at hcl
      | some ir1 =>
          rw [h1] at hcl
          simp only [Option.map_some'] at hcl
          have hcleq : ir1.commentsLikes = ir.commentsLikes := Option.some.inj hcl
          have hall : allLikes ir1 = allLikes ir := by
            unfold allLikes
            rw [hcleq]
          show processLikesList b1 (allLikes ir1) = (b1, none)
          rw [hall]
          exact processLikesList_fixed (allLikes ir) b1
            (processLikesList_all_fixed (allLikes ir) b b1 hrun)

/-- Witness for claim C4: the tally pass on the concrete t1 entry succeeds
and running it again reproduces the same state. -/
theorem claim_C4_witness :
    (_processCommentsLikesResults bEx2 "t1").2 = none ∧
    _processCommentsLikesResults (_processCommentsLikesResults bEx2 "t1").1 "t1" =
      ((_processCommentsLikesResults bEx2 "t1").1, none) := by
  refine ⟨by decide, ?_⟩
  exact claim_C4 bEx2 (_processCommentsLikesResults bEx2 "t1").1 "t1" (by decide)

/-! ## Lemmas: the pagination walk -/

/-- When the page has not started and every filtered item of the walk
misses both cursor tokens, the walk collects nothing and finds no before
position. -/
theorem scanFirst_no_cursor (pr : proposalsRequest) (pageSize : Nat) :
    ∀ l : List (Nat × www.ProposalRecord),
      (∀ q ∈ l, passesFilters pr q.2 = true →
        q.2.CensorshipRecord.Token ≠ pr.After ∧
        q.2.CensorshipRecord.Token ≠ pr.Before) →
      ¬(pr.After = "" ∧ pr.Before = "") →
      scanFirst pr pageSize l false [] = ([], none) := by
  intro l
  induction l with
  | nil => intro _ _; rfl
  | cons hd tl ih =>
      intro hall hco
      obtain ⟨i, p⟩ := hd
      have htl : ∀ q ∈ tl, passesFilters pr q.2 = true →
          q.2.CensorshipRecord.Token ≠ pr.After ∧
          q.2.CensorshipRecord.Token ≠ pr.Before :=
        fun q hq => hall q (List.mem_cons_of_mem _ hq)
      simp only [scanFirst]
      split_ifs with h1 h2 h3 h4 h5 h6
      · exact h2.elim
      · exact h2.elim
      · have hcur := hall (i, p) (List.mem_cons_self _ _) h1
        have hbeq : (p.CensorshipRecord.Token == pr.After) = false := by
          rw [beq_eq_false_iff_ne]
          exact hcur.1
        rw [hbeq]
        exact ih htl hco
      · exact absurd h6 ((hall (i, p) (List.mem_cons_self _ _) h1).2)
      · exact ih htl hco
      · exact absurd ⟨not_ne_iff.mp h4, not_ne_iff.mp h5⟩ hco
      · exact ih htl hco

/-- The collected page never exceeds the page size, and when a before
position is reported the accumulator is still below the page size. -/
theorem scanFirst_length (pr : proposalsRequest) (pageSize : Nat) :
    ∀ (l : List (Nat × www.ProposalRecord)) (started : Bool)
      (acc : List www.ProposalRecord),
      acc.length < pageSize →
      (scanFirst pr pageSize l started acc).1.length ≤ pageSize ∧
      (∀ i, (scanFirst pr pageSize l started acc).2 = some i →
        (scanFirst pr pageSize l started acc).1.length < pageSize) := by
  intro l
  induction l with
  | nil =>
      intro started acc hacc
      refine ⟨le_of_lt hacc, fun i hi => ?_⟩
      simp only [scanFirst] at hi
      cases hi
  | cons hd tl ih =>
      intro started acc hacc
      obtain ⟨i0, p⟩ := hd
      simp only [scanFirst]
      split_ifs with h1 h2 h3 h4 h5 h6
      · refine ⟨?_, fun i hi => ?_⟩
        · have hlen : (acc ++ [p]).length = acc.length + 1 := by
            simp
          rw [hlen]
          omega
        · cases hi
      · exact ih _ _ (Nat.lt_of_not_le h3)
      · exact ih _ _ hacc
      · exact ⟨le_of_lt hacc, fun i _ => hacc⟩
      · exact ih _ _ hacc
      · exact ih _ _ hacc
      · exact ih _ _ hacc

/-- The before walk never exceeds the page size either. -/
theorem scanBefore_length (pr : proposalsRequest) (pageSize : Nat) :
    ∀ (l : List www.ProposalRecord) (acc : List www.ProposalRecord),
      acc.length < pageSize →
      (scanBefore pr pageSize l acc).length ≤ pageSize := by
  intro l
  induction l with
  | nil => intro acc hacc; exact le_of_lt hacc
  | cons p tl ih =>
      intro acc hacc
      simp only [scanBefore]
      split_ifs with h1 h2
      · have hlen : (p :: acc).length = acc.length + 1 := by
          simp
        rw [hlen]
        omega
      · exact ih _ (Nat.lt_of_not_le h2)
      · exact ih _ hacc

/-- Membership in an insertion is membership in the parts. -/
theorem mem_insertSorted (a x : www.ProposalRecord) :
    ∀ l : List www.ProposalRecord, x ∈ insertSorted a l ↔ x = a ∨ x ∈ l := by
  intro l
  induction l with
  | nil => simp [insertSorted]
  | cons b tl ih =>
      by_cases h : proposalLE a b = true
      · simp [insertSorted, h]
      · simp only [insertSorted, if_neg h, List.mem_cons, ih]
        tauto

/-- The sort permutes nothing in or out. -/
theorem mem_sortProposals (x : www.ProposalRecord) :
    ∀ l : List www.ProposalRecord, x ∈ sortProposals l ↔ x ∈ l := by
  intro l
  induction l with
  | nil => simp [sortProposals]
  | cons b tl ih =>
      show x ∈ insertSorted b (sortProposals tl) ↔ _
      rw [mem_insertSorted]
      simp only [List.mem_cons, ih]

/-- A member of the enumerated, reversed sort came from the snapshot. -/
theorem mem_of_enum_reverse {snapshot : List www.ProposalRecord}
    {q : Nat × www.ProposalRecord}
    (hq : q ∈ (sortProposals snapshot).enum.reverse) : q.2 ∈ snapshot := by
  have hq2 : q ∈ (sortProposals snapshot).enum := List.mem_reverse.mp hq
  have hmap : q.2 ∈ ((sortProposals snapshot).enum.map Prod.snd) :=
    List.mem_map_of_mem Prod.snd hq2
  have hsnd : ((sortProposals snapshot).enum.map Prod.snd) = sortProposals snapshot :=
    List.enumFrom_map_snd 0 (sortProposals snapshot)
  rw [hsnd] at hmap
  exact (mem_sortProposals q.2 snapshot).mp hmap

/-- With a cursor set that no filtered snapshot entry carries,
`getProposals` returns the empty page. -/
theorem getProposals_no_cursor (pageSize : Nat) (pr : proposalsRequest)
    (snapshot : List www.ProposalRecord)
    (hco : ¬(pr.After = "" ∧ pr.Before = ""))
    (hall : ∀ p ∈ snapshot, passesFilters pr p = true →
      p.CensorshipRecord.Token ≠ pr.After ∧
      p.CensorshipRecord.Token ≠ pr.Before) :
    getProposals pageSize pr snapshot = [] := by
  have hstart : (pr.After == "" && pr.Before == "") = false := by
    by_cases hA : pr.After = ""
    · have hB : ¬pr.Before = "" := fun h => hco ⟨hA, h⟩
      simp [hB]
    · simp [hA]
  have hall2 : ∀ q ∈ (sortProposals snapshot).enum.reverse,
      passesFilters pr q.2 = true →
      q.2.CensorshipRecord.Token ≠ pr.After ∧
      q.2.CensorshipRecord.Token ≠ pr.Before :=
    fun q hq => hall q.2 (mem_of_enum_reverse hq)
  have hscan := scanFirst_no_cursor pr pageSize
    (sortProposals snapshot).enum.reverse hall2 hco
  unfold getProposals
  rw [hstart, hscan]

/-- Claim C5 (amended): the userId and stateFilter predicates run before the
cursor-token comparison in the walk, so a cursor entry that fails the
predicates is never matched: whenever every snapshot entry carrying the
after or before token fails the predicates, the page is empty rather than
anchored at that entry. -/
theorem claim_C5 (pageSize : Nat) (pr : proposalsRequest)
    (snapshot : List www.ProposalRecord)
    (hco : ¬(pr.After = "" ∧ pr.Before = ""))
    (hfail : ∀ p ∈ snapshot,
      (p.CensorshipRecord.Token = pr.After ∨ p.CensorshipRecord.Token = pr.Before) →
      passesFilters pr p = false) :
    getProposals pageSize pr snapshot = [] := by
  apply getProposals_no_cursor pageSize pr snapshot hco
  intro p hp hpass
  constructor
  · intro hEq
    have hfp := hfail p hp (Or.inl hEq)
    rw [hpass] at hfp
    cases hfp
  · intro hEq
    have hfp := hfail p hp (Or.inr hEq)
    rw [hpass] at hfp
    cases hfp

/-- Counterexample to claim C5 as stated: the snapshot holds pX then pY, the
request is anchored after the token of pY with a user filter only pX
passes; the claim predicts the page anchored past pY, namely the singleton
pX, but the code filters pY out before comparing its token and returns the
empty page. -/
theorem claim_C5_counterexample :
    pY ∈ [pX, pY] ∧ pY.CensorshipRecord.Token = reqC5.After ∧
    passesFilters reqC5 pX = true ∧ passesFilters reqC5 pY = false ∧
    getProposals 2 reqC5 [pX, pY] = [] ∧
    getProposals 2 reqC5 [pX, pY] ≠ [pX] := by
  decide

/-- Witness for claim C5 at the concrete filtered-out cursor. -/
theorem claim_C5_witness :
    ¬(reqC5.After = "" ∧ reqC5.Before = "") ∧
    getProposals 2 reqC5 [pX, pY] = [] :=
  ⟨by decide, claim_C5 2 reqC5 [pX, pY] (by decide) (by decide)⟩

/-- Claim C6: on the snapshot E,D,C,B,A (newest to oldest), a page of size 2
after C is B,A; a page of size 2 before C is E,D; and a cursor token carried
by no filtered entry yields the empty page without error. -/
theorem claim_C6 :
    getProposals 2 reqAfterC snapEx = [pB, pA] ∧
    getProposals 2 reqBeforeC snapEx = [pE, pD] ∧
    (∀ (pageSize : Nat) (pr : proposalsRequest)
        (snapshot : List www.ProposalRecord),
      ¬(pr.After = "" ∧ pr.Before = "") →
      (∀ p ∈ snapshot, passesFilters pr p = true →
        p.CensorshipRecord.Token ≠ pr.After ∧
        p.CensorshipRecord.Token ≠ pr.Before) →
      getProposals pageSize pr snapshot = []) := by
  refine ⟨by decide, by decide, ?_⟩
  intro pageSize pr snapshot hco hall
  exact getProposals_no_cursor pageSize pr snapshot hco hall

/-- Witness for claim C6: the absent cursor token Z yields the empty page on
the example snapshot. -/
theorem claim_C6_witness :
    getProposals 2 reqAfterZ snapEx = [] :=
  claim_C6.2.2 2 reqAfterZ snapEx (by decide) (by decide)

/-- Claim C7: for every request and snapshot, `getProposals` returns at most
page-size proposals, for any positive page-size constant. -/
theorem claim_C7 (pageSize : Nat) (pr : proposalsRequest)
    (snapshot : List www.ProposalRecord) (hps : 1 ≤ pageSize) :
    (getProposals pageSize pr snapshot).length ≤ pageSize := by
  have h0 : ([] : List www.ProposalRecord).length < pageSize := by
    simpa using hps
  have hs := scanFirst_length pr pageSize (sortProposals snapshot).enum.reverse
    (pr.After == "" && pr.Before == "") [] h0
  unfold getProposals
  cases hm : (scanFirst pr pageSize (sortProposals snapshot).enum.reverse
      (pr.After == "" && pr.Before == "") []).2 with
  | none => exact hs.1
  | some i =>
      exact scanBefore_length pr pageSize
        ((sortProposals snapshot).drop (i + 1)) _ (hs.2 i hm)

/-- Witness for claim C7 at the concrete example request. -/
theorem claim_C7_witness :
    1 ≤ 2 ∧ (getProposals 2 reqAfterC snapEx).length ≤ 2 :=
  ⟨by decide, claim_C7 2 reqAfterC snapEx (by decide)⟩

/-! ## The entry copy shares its maps with the cache -/

/-- Claim C9 (amended): `_getInventoryRecord` returns `*r`, a shallow Go
struct copy: the value fields are independent, but the comments map field
is a shared reference, so a map write the caller performs through the
returned copy is visible in the entry stored in the cache; the write
touches no inventory binding itself. -/
theorem claim_C9 (s : RefModel.CacheState) (token : String)
    (e : RefModel.inventoryRecordG) (cid : String) (c : www.Comment)
    (hget : RefModel._getInventoryRecord s token = some e)
    (href : (lookupKey s.commentHeap e.commentsRef).isSome = true) :
    RefModel.cacheComments (RefModel.setCommentThroughCopy s e cid c) token =
      some (insertReplace (RefModel.derefComments s e.commentsRef) cid c) ∧
    (RefModel.setCommentThroughCopy s e cid c).inventory = s.inventory := by
  refine ⟨?_, rfl⟩
  obtain ⟨m, hm⟩ := Option.isSome_iff_exists.mp href
  have hget2 : lookupKey s.inventory token = some e := hget
  unfold RefModel.cacheComments
  have hinv : (RefModel.setCommentThroughCopy s e cid c).inventory = s.inventory := rfl
  rw [hinv, hget2]
  unfold RefModel.derefComments RefModel.setCommentThroughCopy
  show some ((lookupKey (updateEntry s.commentHeap e.commentsRef _) e.commentsRef).getD []) = _
  rw [lookupKey_updateEntry, if_pos rfl, hm]
  rfl

/-- Counterexample to claim C9 as stated: writing a comment through the
copy returned for t1 changes the comments map the stored entry observes. -/
theorem claim_C9_counterexample :
    RefModel._getInventoryRecord sRef "t1" = some eRef ∧
    RefModel.cacheComments (RefModel.setCommentThroughCopy sRef eRef "c1" cEx1) "t1" ≠
      RefModel.cacheComments sRef "t1" := by
  decide

/-- Witness for claim C9 at the concrete cache. -/
theorem claim_C9_witness :
    RefModel._getInventoryRecord sRef "t1" = some eRef ∧
    RefModel.cacheComments (RefModel.setCommentThroughCopy sRef eRef "c1" cEx1) "t1" =
      some (insertReplace (RefModel.derefComments sRef eRef.commentsRef) "c1" cEx1) :=
  ⟨by decide, (claim_C9 sRef "t1" eRef "c1" cEx1 (by decide) (by decide)).1⟩

end Politeia
